import Mathlib

/-!
Verification of the agent-group client core against its specification.

The definitions in this file are a shallow embedding of the repository's
TypeScript source:

* `src/frontend/src/lib/local-db.ts` — the persistent store
  (sessions / agents / import-export bundle);
* `src/frontend - 副本/src/lib/backup.ts` — backup codec and the chat
  orchestrator hooks (`parseMentionedAgents`, `sendMessage`,
  `addMessageOnly`);
* `src/frontend - 副本/src/components/agent-modal.tsx` (second unit in the
  file) — the LLM client adapter (`buildOpenAiMessages`).

Conventions of the embedding:

* Timestamps (`Date.now() / 1000`, a JS float) are modelled as `Nat`; the
  claims under verification only use ordering and equality of timestamps.
* Nondeterministic fresh-id generation (`crypto.randomUUID`) is modelled by
  explicitly passing either a single fresh id or a generator `gen : Nat → String`
  whose freshness / injectivity is a hypothesis where a claim needs it.
* IndexedDB object stores are modelled as lists of records; `put` is a keyed
  upsert (replace the record with the same key, else append).
* Fallible operations (`throw`) are modelled with `Except String`.
-/

namespace AgentGroup

/-- A JSON value (JS runtime value shape).  Numbers are restricted to `Nat`:
every number occurring in an export bundle (timestamps, `version`, `order`)
is a non-negative count or epoch value. -/
inductive Json where
  | null : Json
  | bool (b : Bool) : Json
  | num (n : Nat) : Json
  | str (s : String) : Json
  | arr (xs : List Json) : Json
  | obj (fields : List (String × Json)) : Json
deriving Repr

/-- An LLM persona, from the `Agent` type in `src/types` (the copy-dir variant
additionally carries `temperature`, used by the LLM adapter; we keep the union
of the fields so one record type serves both units). -/
structure Agent where
  name : String
  system_prompt : String
  avatar_url : Option String := none
  model : Option String := none
  custom_params : Option Json := none
  base_url : Option String := none
  api_key : Option String := none
  stream : Option Bool := none
  order : Option Nat := none
  temperature : Option Nat := none
deriving Repr

/-- A persisted transcript message, from `StoredMessage` in `local-db.ts`:
a tagged union over the kinds `user` / `agent` / `system`. -/
inductive StoredMessage where
  | user (id : String) (content : String) (images : Option (List String))
      (created_at : Nat) : StoredMessage
  | agent (id : String) (speaker : String) (content : String)
      (images : Option (List String)) (created_at : Nat) : StoredMessage
  | system (id : String) (content : String) (created_at : Nat) : StoredMessage
deriving DecidableEq, Repr

namespace StoredMessage

/-- The `id` field common to the three message kinds. -/
def mid : StoredMessage → String
  | .user i _ _ _ => i
  | .agent i _ _ _ _ => i
  | .system i _ _ => i

/-- The `content` field common to the three message kinds. -/
def content : StoredMessage → String
  | .user _ c _ _ => c
  | .agent _ _ c _ _ => c
  | .system _ c _ => c

/-- The `created_at` field common to the three message kinds. -/
def createdAt : StoredMessage → Nat
  | .user _ _ _ t => t
  | .agent _ _ _ _ t => t
  | .system _ _ t => t

/-- The spread `{ ...m, id: newId }` used by the fork operation: replace
only the `id`, keep every other field. -/
def withId (m : StoredMessage) (i : String) : StoredMessage :=
  match m with
  | .user _ c imgs t => .user i c imgs t
  | .agent _ s c imgs t => .agent i s c imgs t
  | .system _ c t => .system i c t

end StoredMessage

/-- An in-memory transcript entry, from `TranscriptItem` in `src/types`
(no `created_at`; agent entries carry the transient `isStreaming` flag). -/
inductive TranscriptItem where
  | user (id : String) (content : String) (images : Option (List String)) :
      TranscriptItem
  | agent (id : String) (speaker : String) (content : String)
      (images : Option (List String)) (isStreaming : Option Bool) :
      TranscriptItem
  | system (id : String) (content : String) : TranscriptItem
deriving DecidableEq, Repr

namespace TranscriptItem

/-- The `id` field common to the three item kinds. -/
def tid : TranscriptItem → String
  | .user i _ _ => i
  | .agent i _ _ _ _ => i
  | .system i _ => i

/-- The `content` field common to the three item kinds. -/
def content : TranscriptItem → String
  | .user _ c _ => c
  | .agent _ _ c _ _ => c
  | .system _ c => c

/-- Whether the item has kind `system`. -/
def isSystemKind : TranscriptItem → Bool
  | .system _ _ => true
  | _ => false

end TranscriptItem

/-- A stored session record, from `StoredSession` in `local-db.ts`.

The `order` field: the declared `StoredSession` type does not list it, but the
repository's `SessionSummary` type declares `order?: number` and
`src/frontend/src/app/page.tsx` calls `dbUpdateSessionsOrder(orderedIds)`,
which writes an `order` value onto the stored session records; at runtime a
stored session object may therefore carry `order`.  We keep it as an optional
field (absent on every record the store functions in `local-db.ts` create). -/
structure StoredSession where
  id : String
  name : String
  global_prompt : String
  created_at : Nat
  updated_at : Nat
  messages : List StoredMessage
  order : Option Nat := none
deriving DecidableEq, Repr

/-- A lightweight session summary, from `SessionSummary` in `src/types`. -/
structure SessionSummary where
  id : String
  name : String
  global_prompt : String
  created_at : Nat
  message_count : Nat
deriving DecidableEq, Repr

/-- The `_toSessionSummary` helper of `local-db.ts`. -/
def toSessionSummary (s : StoredSession) : SessionSummary :=
  { id := s.id
    name := s.name
    global_prompt := s.global_prompt
    created_at := s.created_at
    message_count := s.messages.length }

/-- JS `Array.prototype.findIndex`: index of the first element satisfying a
predicate. -/
def findIndex (p : α → Bool) : List α → Option Nat
  | [] => none
  | a :: as => if p a then some 0 else (findIndex p as).map (· + 1)

/-- IndexedDB `put` on an object store keyed by `key`: replace the record
with the same key if present, else append. -/
def putKeyed {κ : Type} [DecidableEq κ] (key : α → κ) (l : List α) (a : α) :
    List α :=
  if l.any (fun t => key t = key a) then
    l.map (fun t => if key t = key a then a else t)
  else
    l ++ [a]

/-- Look a session up by id (`store.get(sessionId)` on the keyed object
store, i.e. `dbGetSession`). -/
def findSession (store : List StoredSession) (sessionId : String) :
    Option StoredSession :=
  store.find? (fun s => s.id = sessionId)

/-- IndexedDB `put` on the sessions store (keyed by `id`). -/
def putSession (store : List StoredSession) (s : StoredSession) :
    List StoredSession :=
  putKeyed StoredSession.id store s

/-- Insertion of one summary into a list sorted by `created_at` descending. -/
def insertByCreatedDesc (s : StoredSession) :
    List StoredSession → List StoredSession
  | [] => [s]
  | t :: ts =>
      if t.created_at ≤ s.created_at then s :: t :: ts
      else t :: insertByCreatedDesc s ts

/-- Sort sessions by `created_at` descending (the comparator
`(a, b) => b.created_at - a.created_at` of `dbListSessions`). -/
def sortByCreatedDesc : List StoredSession → List StoredSession
  | [] => []
  | s :: ss => insertByCreatedDesc s (sortByCreatedDesc ss)

/-- The `dbListSessions` operation of `local-db.ts`: read every stored
session, sort by `created_at` descending, and map to summaries.  Note the
source sorts only by `created_at`; it never consults `order`. -/
def dbListSessions (store : List StoredSession) : List SessionSummary :=
  (sortByCreatedDesc store).map toSessionSummary

/-- The `dbCreateSession` operation: fresh id, both timestamps set to `now`,
empty message list; the record is `put` into the store and its summary
returned. -/
def dbCreateSession (store : List StoredSession) (freshId : String)
    (now : Nat) (name : String) (global_prompt : String) :
    SessionSummary × List StoredSession :=
  let session : StoredSession :=
    { id := freshId
      name := name
      global_prompt := global_prompt
      created_at := now
      updated_at := now
      messages := [] }
  (toSessionSummary session, putSession store session)

/-- The `dbUpdateSession` operation: partial update of `name` /
`global_prompt`, bumping `updated_at`; silently a no-op when the session id
is absent. -/
def dbUpdateSession (store : List StoredSession) (now : Nat)
    (sessionId : String) (name : Option String)
    (global_prompt : Option String) : List StoredSession :=
  match findSession store sessionId with
  | none => store
  | some session =>
      putSession store
        { session with
          name := name.getD session.name
          global_prompt := global_prompt.getD session.global_prompt
          updated_at := now }

/-- Conversion `_toStoredMessage` of `local-db.ts`: stamp a transcript item
with a `created_at`, dropping the transient `isStreaming` flag. -/
def toStoredMessage (item : TranscriptItem) (created_at : Nat) :
    StoredMessage :=
  match item with
  | .user i c imgs => .user i c imgs created_at
  | .system i c => .system i c created_at
  | .agent i s c imgs _ => .agent i s c imgs created_at

/-- The `dbAppendMessage` operation: fails when the session is absent;
assigns `freshId` when the item's id is the empty string (JS
`item.id || _newId()`); appends to the end and bumps `updated_at`. -/
def dbAppendMessage (store : List StoredSession) (freshId : String)
    (now : Nat) (sessionId : String) (item : TranscriptItem) :
    Except String (String × List StoredSession) :=
  match findSession store sessionId with
  | none => .error "Session not found"
  | some session =>
      let messageId := if item.tid = "" then freshId else item.tid
      let stored := toStoredMessage (itemWithId item messageId) now
      .ok (messageId,
        putSession store
          { session with
            updated_at := now
            messages := session.messages ++ [stored] })
where
  /-- The spread `{ ...item, id: messageId }`. -/
  itemWithId (item : TranscriptItem) (i : String) : TranscriptItem :=
    match item with
    | .user _ c imgs => .user i c imgs
    | .agent _ s c imgs st => .agent i s c imgs st
    | .system _ c => .system i c

/-- The `dbUpsertMessage` operation: fails when the session is absent; when a
message with the item's id exists, replaces it in place keeping its original
`created_at`; otherwise appends with `created_at := now`; always bumps
`updated_at`. -/
def dbUpsertMessage (store : List StoredSession) (now : Nat)
    (sessionId : String) (item : TranscriptItem) :
    Except String (List StoredSession) :=
  match findSession store sessionId with
  | none => .error "Session not found"
  | some session =>
      match findIndex (fun m => m.mid = item.tid) session.messages with
      | some idx =>
          let kept :=
            match session.messages.get? idx with
            | some m => m.createdAt
            | none => now
          let stored := toStoredMessage item kept
          .ok (putSession store
            { session with
              updated_at := now
              messages := session.messages.set idx stored })
      | none =>
          let stored := toStoredMessage item now
          .ok (putSession store
            { session with
              updated_at := now
              messages := session.messages ++ [stored] })

/-- Update of one message's `content` by id, from `dbUpdateMessageContent`:
returns `false` (store untouched) when the session or message is absent. -/
def dbUpdateMessageContent (store : List StoredSession) (now : Nat)
    (sessionId : String) (messageId : String) (newContent : String) :
    Bool × List StoredSession :=
  match findSession store sessionId with
  | none => (false, store)
  | some session =>
      match findIndex (fun m => m.mid = messageId) session.messages with
      | none => (false, store)
      | some idx =>
          match session.messages.get? idx with
          | none => (false, store)
          | some msg =>
              let nextMessages :=
                session.messages.set idx
                  (match msg with
                   | .user i _ imgs t => .user i newContent imgs t
                   | .agent i s _ imgs t => .agent i s newContent imgs t
                   | .system i _ t => .system i newContent t)
              (true,
               putSession store
                 { session with updated_at := now, messages := nextMessages })

/-- The `dbDeleteMessage` operation: filter out every message whose id equals
`messageId`; when nothing was removed return `false` without rewriting the
session record; otherwise bump `updated_at` and return `true`. -/
def dbDeleteMessage (store : List StoredSession) (now : Nat)
    (sessionId : String) (messageId : String) : Bool × List StoredSession :=
  match findSession store sessionId with
  | none => (false, store)
  | some session =>
      let nextMessages := session.messages.filter (fun m => m.mid ≠ messageId)
      if nextMessages.length = session.messages.length then (false, store)
      else
        (true,
         putSession store
           { session with updated_at := now, messages := nextMessages })

/-- Map with the element's index, the pure rendering of a JS `.map` whose
callback draws one fresh value per element. -/
def mapWithIdx (f : Nat → α → β) : List α → List β
  | [] => []
  | a :: as => f 0 a :: mapWithIdx (fun i x => f (i + 1) x) as

/-- The `dbForkSessionFromMessage` operation.  `gen 0` is the forked session's
fresh id and `gen (i+1)` the fresh id of the i-th copied message, matching the
evaluation order of the `_newId()` calls in the source.  The JS default
`newName || "<name> (分支)"` treats the empty string as absent. -/
def dbForkSessionFromMessage (store : List StoredSession)
    (gen : Nat → String) (now : Nat) (sourceSessionId : String)
    (messageId : String) (newName : Option String) :
    Option SessionSummary × List StoredSession :=
  match findSession store sourceSessionId with
  | none => (none, store)
  | some source =>
      match findIndex (fun m => m.mid = messageId) source.messages with
      | none => (none, store)
      | some idx =>
          let forked : StoredSession :=
            { id := gen 0
              name :=
                match newName with
                | some n => if n = "" then source.name ++ " (分支)" else n
                | none => source.name ++ " (分支)"
              global_prompt := source.global_prompt
              created_at := now
              updated_at := now
              messages :=
                mapWithIdx (fun i m => m.withId (gen (i + 1)))
                  (source.messages.take (idx + 1)) }
          (some (toSessionSummary forked), putSession store forked)

/-- IndexedDB `put` on the agents store (keyed by `name`). -/
def putAgent (agents : List Agent) (a : Agent) : List Agent :=
  putKeyed Agent.name agents a

/-- The two collections an export bundle replaces. -/
structure Store where
  agents : List Agent
  sessions : List StoredSession
deriving Repr

/-- An export bundle, from `ExportBundleV1` in `local-db.ts`.  The `app` and
`version` fields are arbitrary at the import boundary (the value comes from
`JSON.parse` of a user-chosen file), so they are plain `String` / `Nat` here
and the literal tag is checked by `dbImportBundle`. -/
structure ExportBundleV1 where
  app : String
  version : Nat
  exported_at : Nat
  agents : List Agent
  sessions : List StoredSession
  active_session_id : Option String
deriving Repr

/-- The `dbExportBundle` operation: snapshot both collections. -/
def dbExportBundle (store : Store) (now : Nat)
    (activeSessionId : Option String) : ExportBundleV1 :=
  { app := "agent-group"
    version := 1
    exported_at := now
    agents := store.agents
    sessions := store.sessions
    active_session_id := activeSessionId }

/-- The `dbImportBundle` operation: reject (before any write) unless
`app = "agent-group"` and `version = 1`; otherwise clear both collections and
`put` every bundled record.  The result pairs the store after the call with
the raised error, if any: on rejection the store is returned untouched, the
throw happening before the transaction is opened. -/
def dbImportBundle (store : Store) (bundle : ExportBundleV1) :
    Store × Option String :=
  if bundle.app ≠ "agent-group" ∨ bundle.version ≠ 1 then
    (store, some "Unsupported import file")
  else
    ({ agents := bundle.agents.foldl putAgent []
       sessions := bundle.sessions.foldl putSession [] }, none)

/-! ## Mention parsing (`parseMentionedAgents` in `backup.ts`) -/

/-- Character class of the mention regex `/@([\w\-一-鿿]+)/g`:
ASCII word characters, the hyphen, and the CJK block U+4E00–U+9FFF. -/
def isMentionChar (c : Char) : Bool :=
  (('a' ≤ c ∧ c ≤ 'z') ∨ ('A' ≤ c ∧ c ≤ 'Z') ∨ ('0' ≤ c ∧ c ≤ '9') ∨
    c = '_' ∨ c = '-' ∨ (0x4e00 ≤ c.val ∧ c.val ≤ 0x9fff) : Prop)

/-- Fuelled worker for the mention scan; the fuel is an upper bound on the
number of characters still to inspect, so `fuel = l.length` runs the scan to
completion. -/
def mentionScanAux : Nat → List Char → List String
  | 0, _ => []
  | _ + 1, [] => []
  | fuel + 1, c :: rest =>
      if c = '@' ∧ rest.takeWhile isMentionChar ≠ [] then
        String.mk (rest.takeWhile isMentionChar) ::
          mentionScanAux fuel (rest.dropWhile isMentionChar)
      else
        mentionScanAux fuel rest

/-- Global scan of the mention regex: left to right, at each `@` take the
maximal nonempty run of mention characters as one match (returned without the
leading `@`, the regex group), resume after it; otherwise advance one
character. -/
def mentionScan (l : List Char) : List String := mentionScanAux l.length l

/-- The seen-set loop of `parseMentionedAgents`: keep matches that name a
known agent, dropping repeats of a name already kept. -/
def pickMentioned (agentNames : List String) :
    List String → List String → List String
  | _, [] => []
  | seen, name :: rest =>
      if agentNames.contains name then
        if seen.contains name then pickMentioned agentNames seen rest
        else name :: pickMentioned agentNames (name :: seen) rest
      else pickMentioned agentNames seen rest

/-- The `parseMentionedAgents` function of `backup.ts`. -/
def parseMentionedAgents (message : String) (agentsList : List Agent) :
    List String :=
  let ms := mentionScan message.data
  if ms.isEmpty then []
  else pickMentioned (agentsList.map Agent.name) [] ms

/-- Specification-side deduplication keeping the first occurrence. -/
def dedupKeepFirst : List String → List String
  | [] => []
  | x :: xs => x :: dedupKeepFirst (xs.filter (fun y => y ≠ x))
  termination_by l => l.length
  decreasing_by
    simp only [List.length_cons]
    exact Nat.lt_succ_of_le (List.length_filter_le _ _)

/-! ## Chat orchestrator (`useChat` in `backup.ts`) -/

/-- Result of one LLM adapter call as the orchestrator observes it: a
returned completion, a thrown non-abort error with its message, or a thrown
`AbortError` (with whatever streamed deltas had landed before the abort). -/
inductive LlmOutcome where
  | ok (content : String) : LlmOutcome
  | err (msg : String) : LlmOutcome
  | aborted (part : String) : LlmOutcome
deriving DecidableEq, Repr

/-- The finalize `setTranscript` of the agent loop: for the item with the
given id of kind `agent`, set its content and clear the streaming flag. -/
def setAgentFinal (t : List TranscriptItem) (i : String) (c : String) :
    List TranscriptItem :=
  t.map fun item =>
    match item with
    | .agent j s _ imgs _ => if j = i then .agent j s c imgs (some false) else item
    | _ => item

/-- The streaming delta `setTranscript`: for the item with the given id of
kind `agent`, append the delta to its content (flag untouched). -/
def appendAgentContent (t : List TranscriptItem) (i : String) (delta : String) :
    List TranscriptItem :=
  t.map fun item =>
    match item with
    | .agent j s c imgs st =>
        if j = i then .agent j s (c ++ delta) imgs st else item
    | _ => item

/-- State visible after a (possibly partial) run of the mentioned-agent loop:
the in-memory transcript, the `dbUpsertMessage` calls issued in order, the
agents for which an LLM call was started, and whether the loop was stopped by
an `AbortError`. -/
structure RunState where
  transcript : List TranscriptItem
  upserts : List TranscriptItem
  invoked : List String
  halted : Bool
deriving DecidableEq, Repr

/-- The sequential mentioned-agent loop of `sendMessage`.  `outcome k` is the
result of the k-th LLM call; `gen k` the fresh id of the k-th placeholder.
A non-abort failure is converted to the `[调用失败]` marker and the loop
continues; an `AbortError` is rethrown, the outer handler returning with the
transcript exactly as the streamed deltas left it, persisting nothing for
that agent. -/
def runAgents (agentsList : List Agent) (outcome : Nat → LlmOutcome)
    (gen : Nat → String) :
    List String → Nat → List TranscriptItem → List TranscriptItem →
    List TranscriptItem → List String → RunState
  | [], _, _, transcript, upserts, invoked =>
      ⟨transcript, upserts, invoked, false⟩
  | name :: rest, k, working, transcript, upserts, invoked =>
      match agentsList.find? (fun a => a.name = name) with
      | none => runAgents agentsList outcome gen rest k working transcript upserts invoked
      | some _ =>
          let pid := gen k
          let t1 := transcript ++ [.agent pid name "" none (some true)]
          match outcome k with
          | .aborted part =>
              ⟨appendAgentContent t1 pid part, upserts, invoked ++ [name], true⟩
          | .ok c =>
              let fin : TranscriptItem := .agent pid name c none none
              runAgents agentsList outcome gen rest (k + 1)
                (working ++ [fin]) (setAgentFinal t1 pid c)
                (upserts ++ [fin]) (invoked ++ [name])
          | .err m =>
              let full := "[调用失败] " ++ m
              let fin : TranscriptItem := .agent pid name full none none
              runAgents agentsList outcome gen rest (k + 1)
                (working ++ [fin]) (setAgentFinal t1 pid full)
                (upserts ++ [fin]) (invoked ++ [name])

/-- The content rule of the user message in `sendMessage` / `addMessageOnly`:
JS `message || (images.length > 0 ? "[图片]" : "")`. -/
def userContent (message : String) (images : List String) : String :=
  if message = "" then (if images.length > 0 then "[图片]" else "") else message

/-- Everything `sendMessage` leaves behind: final transcript, the persisted
user message (the `dbAppendMessage` call), the `dbUpsertMessage` calls, the
agents called, and whether the run was aborted. -/
structure SendOutcome where
  transcript : List TranscriptItem
  userPersist : TranscriptItem
  upserts : List TranscriptItem
  invoked : List String
  halted : Bool
deriving DecidableEq, Repr

/-- The `sendMessage` orchestration of `backup.ts` for one submission:
append and persist the user message, parse mentions, and when any known
agent is mentioned run the sequential agent loop over the working history
(the prior transcript plus the user message, `system` entries excluded). -/
def sendMessage (agentsList : List Agent) (outcome : Nat → LlmOutcome)
    (userId : String) (gen : Nat → String)
    (prevTranscript : List TranscriptItem) (message : String)
    (images : List String) : SendOutcome :=
  let userItem : TranscriptItem :=
    .user userId (userContent message images) (some images)
  let t0 := prevTranscript ++ [userItem]
  let mentioned := parseMentionedAgents message agentsList
  if mentioned.isEmpty then
    ⟨t0, userItem, [], [], false⟩
  else
    let working := t0.filter (fun i => ¬ i.isSystemKind)
    let r := runAgents agentsList outcome gen mentioned 0 working t0 [] []
    ⟨r.transcript, userItem, r.upserts, r.invoked, r.halted⟩

/-- The `addMessageOnly` operation of `backup.ts`: append and persist a user
message without invoking any agent; returns the new item and the transcript. -/
def addMessageOnly (userId : String) (prevTranscript : List TranscriptItem)
    (message : String) (images : List String) :
    TranscriptItem × List TranscriptItem :=
  let item : TranscriptItem :=
    .user userId (userContent message images) (some images)
  (item, prevTranscript ++ [item])

/-! ## LLM client adapter (`buildOpenAiMessages`) -/

/-- OpenAI chat roles. -/
inductive OpenAiRole where
  | system : OpenAiRole
  | user : OpenAiRole
  | assistant : OpenAiRole
deriving DecidableEq, Repr

/-- A part of a multi-part message content. -/
inductive ContentPart where
  | text (t : String) : ContentPart
  | imageUrl (url : String) : ContentPart
deriving DecidableEq, Repr

/-- Message content: a plain string or multi-part content. -/
inductive OpenAiContent where
  | str (s : String) : OpenAiContent
  | parts (ps : List ContentPart) : OpenAiContent
deriving DecidableEq, Repr

/-- One OpenAI-compatible chat message. -/
structure OpenAiChatMessage where
  role : OpenAiRole
  content : OpenAiContent
deriving DecidableEq, Repr

/-- JS whitespace (the ASCII part relevant to this model). -/
def jsWhitespace (c : Char) : Bool :=
  (c = ' ' ∨ c = '\t' ∨ c = '\n' ∨ c = '\r' ∨ c = '\x0b' ∨ c = '\x0c' : Prop)

/-- Strip leading and trailing whitespace from a character list. -/
def trimChars (l : List Char) : List Char :=
  ((l.dropWhile jsWhitespace).reverse.dropWhile jsWhitespace).reverse

/-- The JS `String.prototype.trim` used by the adapter, modelled
structurally (kernel-computable, unlike the builtin `String.trim`). -/
def jsTrim (s : String) : String := String.mk (trimChars s.data)

/-- The `speakerForItem` helper of the adapter. -/
def speakerForItem : TranscriptItem → String
  | .user _ _ _ => "用户"
  | .agent _ s _ _ _ => s
  | .system _ _ => "System"

/-- Normalisation of one image reference to a data URI. -/
def imageDataUri (img : String) : String :=
  if img.startsWith "data:" then img else "data:image/png;base64," ++ img

/-- The per-item body of the history loop in `buildOpenAiMessages`. -/
def historyEntry (targetAgent : Agent) (item : TranscriptItem) :
    OpenAiChatMessage :=
  let speaker := speakerForItem item
  let isTarget : Bool :=
    match item with
    | .agent _ s _ _ _ => decide (s = targetAgent.name)
    | _ => false
  let prefixLabel := if isTarget then "" else "[" ++ speaker ++ "]: "
  let role : OpenAiRole := if isTarget then .assistant else .user
  match itemImages item with
  | some imgs =>
      if imgs.length > 0 then
        let text := jsTrim item.content
        let textParts : List ContentPart :=
          if text ≠ "" then [.text (prefixLabel ++ text)] else []
        ⟨role, .parts (textParts ++ imgs.map (fun i => .imageUrl (imageDataUri i)))⟩
      else ⟨role, .str (prefixLabel ++ item.content)⟩
  | none => ⟨role, .str (prefixLabel ++ item.content)⟩
where
  /-- The optional `images` field of an item. -/
  itemImages : TranscriptItem → Option (List String)
    | .user _ _ imgs => imgs
    | .agent _ _ _ imgs _ => imgs
    | .system _ _ => none

/-- The history loop of `buildOpenAiMessages`: one entry per item, skipping
`system`-kind items. -/
def historyMessages (targetAgent : Agent) : List TranscriptItem →
    List OpenAiChatMessage
  | [] => []
  | item :: rest =>
      if item.isSystemKind then historyMessages targetAgent rest
      else historyEntry targetAgent item :: historyMessages targetAgent rest

/-- The system-entry content of `buildOpenAiMessages`: the agent's prompt,
with the trimmed global prompt appended as a delimited block when the global
prompt trims to something nonempty. -/
def systemContent (targetAgent : Agent) (globalPrompt : Option String) :
    String :=
  match globalPrompt with
  | some g =>
      if jsTrim g ≠ "" then
        targetAgent.system_prompt ++ "\n\n[当前讨论组的全局设定/背景]:\n" ++ jsTrim g
      else targetAgent.system_prompt
  | none => targetAgent.system_prompt

/-- The `buildOpenAiMessages` function of the LLM adapter. -/
def buildOpenAiMessages (targetAgent : Agent) (globalPrompt : Option String)
    (history : List TranscriptItem) : List OpenAiChatMessage :=
  ⟨.system, .str (systemContent targetAgent globalPrompt)⟩ ::
    historyMessages targetAgent history

/-! ## Invariant predicates -/

/-- The data-model invariant `updated_at ≥ created_at` of one session. -/
def SessionWf (s : StoredSession) : Prop := s.created_at ≤ s.updated_at

/-- The invariant over a whole sessions collection. -/
def StoreWf (store : List StoredSession) : Prop := ∀ s ∈ store, SessionWf s

/-- Clock monotonicity: the current clock reading is at least every stored
session's creation time. -/
def ClockLe (now : Nat) (store : List StoredSession) : Prop :=
  ∀ s ∈ store, s.created_at ≤ now

/-! ## Concrete instances used by witnesses and counterexamples -/

/-- A concrete injective id generator avoiding the demo ids. -/
def demoGen (n : Nat) : String := String.mk (List.replicate (n + 1) 'f')

/-- A concrete message list. -/
def demoMessages : List StoredMessage :=
  [.user "m0" "hello" none 1,
   .agent "m1" "A" "hi there" (some ["img"]) 2,
   .user "m2" "later" none 3]

/-- A concrete stored session. -/
def demoSession : StoredSession :=
  { id := "s1", name := "group", global_prompt := "gp"
    created_at := 5, updated_at := 6, messages := demoMessages }

/-- A concrete one-session store. -/
def demoStore : List StoredSession := [demoSession]

/-- A concrete agent used by adapter instances. -/
def demoAgentA : Agent := { name := "A", system_prompt := "P" }

/-- A concrete agent named Alice. -/
def demoAlice : Agent := { name := "Alice", system_prompt := "pa" }

/-- A concrete agent named Bob. -/
def demoBob : Agent := { name := "Bob", system_prompt := "pb" }

/-- A session with an explicit `order` field and the older `created_at`. -/
def orderedA : StoredSession :=
  { id := "a", name := "n1", global_prompt := "", created_at := 1
    updated_at := 1, messages := [], order := some 0 }

/-- A session with an explicit `order` field and the newer `created_at`. -/
def orderedB : StoredSession :=
  { id := "b", name := "n2", global_prompt := "", created_at := 2
    updated_at := 2, messages := [], order := some 1 }

/-- A concrete store holding one agent and one session. -/
def demoFullStore : Store := { agents := [demoAgentA], sessions := [orderedA] }

/-- A bundle with a wrong version number. -/
def badBundle : ExportBundleV1 :=
  { app := "agent-group", version := 2, exported_at := 0, agents := []
    sessions := [], active_session_id := none }

/-- A well-formed version-1 bundle. -/
def goodBundle : ExportBundleV1 :=
  { app := "agent-group", version := 1, exported_at := 3
    agents := [demoAlice, demoBob], sessions := [demoSession]
    active_session_id := some "s1" }

/-- Erasure of the `order` field of a session. -/
def eraseOrder (s : StoredSession) : StoredSession := { s with order := none }

/-! ## Backup codec: JSON text layer

Modelled from the spec: the platform `JSON.stringify` / `JSON.parse` pair
used by `backup.ts` is not part of the repository source; it is modelled
here as a compact printer and a recursive-descent parser over `Json`
(strings escaped with `\"`, `\\` and `\u00XX` for control characters;
numbers are the non-negative integers this data model uses). -/

/-- Decimal digit predicate on characters, by code point. -/
def isDigitChar (c : Char) : Bool := (48 ≤ c.toNat ∧ c.toNat ≤ 57 : Prop)

/-- The decimal digit character of a value below ten. -/
def digitChar : Nat → Char
  | 0 => '0' | 1 => '1' | 2 => '2' | 3 => '3' | 4 => '4'
  | 5 => '5' | 6 => '6' | 7 => '7' | 8 => '8' | _ => '9'

/-- Value of a decimal digit character. -/
def digitVal (c : Char) : Nat := c.toNat - 48

/-- The lower-case hexadecimal digit character of a value below sixteen. -/
def hexDigit : Nat → Char
  | 0 => '0' | 1 => '1' | 2 => '2' | 3 => '3' | 4 => '4'
  | 5 => '5' | 6 => '6' | 7 => '7' | 8 => '8' | 9 => '9'
  | 10 => 'a' | 11 => 'b' | 12 => 'c' | 13 => 'd' | 14 => 'e' | _ => 'f'

/-- Value of a hexadecimal digit character, if any. -/
def hexVal (c : Char) : Option Nat :=
  if isDigitChar c then some (digitVal c)
  else if 97 ≤ c.toNat ∧ c.toNat ≤ 102 then some (c.toNat - 87)
  else none

/-- Decimal digits of a natural number, most significant first. -/
def natChars (n : Nat) : List Char :=
  if _h : n < 10 then [digitChar n]
  else natChars (n / 10) ++ [digitChar (n % 10)]
  termination_by n
  decreasing_by exact Nat.div_lt_self (by omega) (by omega)

/-- Decimal value of a digit string. -/
def natFromChars (l : List Char) : Nat :=
  l.foldl (fun acc c => acc * 10 + digitVal c) 0

/-- Escape one character as `JSON.stringify` does in this model. -/
def escChar (c : Char) : List Char :=
  if c = '"' then ['\\', '"']
  else if c = '\\' then ['\\', '\\']
  else if c.toNat < 32 then
    ['\\', 'u', '0', '0', hexDigit (c.toNat / 16), hexDigit (c.toNat % 16)]
  else [c]

/-- Escape a character list. -/
def escChars : List Char → List Char
  | [] => []
  | c :: cs => escChar c ++ escChars cs

/-- Print a JSON string literal (quotes included). -/
def printStringChars (s : String) : List Char :=
  '"' :: escChars s.data ++ ['"']

mutual

/-- Compact printing of a JSON value. -/
def jsonPrintChars : Json → List Char
  | .null => ['n', 'u', 'l', 'l']
  | .bool b => cond b ['t', 'r', 'u', 'e'] ['f', 'a', 'l', 's', 'e']
  | .num n => natChars n
  | .str s => printStringChars s
  | .arr xs => '[' :: printElems xs ++ [']']
  | .obj fs => '{' :: printFields fs ++ ['}']

/-- Print array elements, comma-separated. -/
def printElems : List Json → List Char
  | [] => []
  | [x] => jsonPrintChars x
  | x :: y :: ys => jsonPrintChars x ++ ',' :: printElems (y :: ys)

/-- Print object fields, comma-separated. -/
def printFields : List (String × Json) → List Char
  | [] => []
  | [(k, v)] => printStringChars k ++ ':' :: jsonPrintChars v
  | (k, v) :: f :: fs =>
      printStringChars k ++ ':' :: jsonPrintChars v ++ ',' :: printFields (f :: fs)

end

/-- The serialised form of a JSON value (`JSON.stringify` model). -/
def jsonPrint (j : Json) : String := String.mk (jsonPrintChars j)

/-- Parse the remainder of a JSON string literal (opening quote already
consumed), returning the string and the rest of the input. -/
def parseStringRest : Nat → List Char → Option (String × List Char)
  | 0, _ => none
  | _ + 1, [] => none
  | fuel + 1, c :: cs =>
      if c = '"' then some ("", cs)
      else if c = '\\' then
        match cs with
        | [] => none
        | e :: cs2 =>
            if e = '"' ∨ e = '\\' then
              (parseStringRest fuel cs2).map
                (fun p => (String.mk (e :: p.1.data), p.2))
            else if e = 'u' then
              match cs2 with
              | h1 :: h2 :: h3 :: h4 :: cs3 =>
                  match hexVal h1, hexVal h2, hexVal h3, hexVal h4 with
                  | some a, some b, some d1, some d2 =>
                      (parseStringRest fuel cs3).map
                        (fun p =>
                          (String.mk (Char.ofNat
                            (((a * 16 + b) * 16 + d1) * 16 + d2) :: p.1.data),
                           p.2))
                  | _, _, _, _ => none
              | _ => none
            else none
      else
        (parseStringRest fuel cs).map
          (fun p => (String.mk (c :: p.1.data), p.2))

mutual

/-- Fuelled recursive-descent JSON parser (`JSON.parse` model). -/
def parseJ : Nat → List Char → Option (Json × List Char)
  | 0, _ => none
  | _ + 1, [] => none
  | fuel + 1, c :: cs =>
      if c = 'n' then
        match cs with
        | 'u' :: 'l' :: 'l' :: rest => some (.null, rest)
        | _ => none
      else if c = 't' then
        match cs with
        | 'r' :: 'u' :: 'e' :: rest => some (.bool true, rest)
        | _ => none
      else if c = 'f' then
        match cs with
        | 'a' :: 'l' :: 's' :: 'e' :: rest => some (.bool false, rest)
        | _ => none
      else if c = '"' then
        (parseStringRest fuel cs).map (fun p => (.str p.1, p.2))
      else if c = '[' then
        (parseElems fuel cs).map (fun p => (.arr p.1, p.2))
      else if c = '{' then
        (parseFields fuel cs).map (fun p => (.obj p.1, p.2))
      else if isDigitChar c then
        some (.num (natFromChars ((c :: cs).takeWhile isDigitChar)),
          (c :: cs).dropWhile isDigitChar)
      else none

/-- Parse array elements up to and including the closing bracket. -/
def parseElems : Nat → List Char → Option (List Json × List Char)
  | 0, _ => none
  | _ + 1, [] => none
  | fuel + 1, c :: cs =>
      if c = ']' then some ([], cs)
      else
        match parseJ fuel (c :: cs) with
        | none => none
        | some (j, rest) =>
            match rest with
            | ',' :: r2 => (parseElems fuel r2).map (fun p => (j :: p.1, p.2))
            | ']' :: r2 => some ([j], r2)
            | _ => none

/-- Parse object fields up to and including the closing brace. -/
def parseFields : Nat → List Char → Option (List (String × Json) × List Char)
  | 0, _ => none
  | _ + 1, [] => none
  | fuel + 1, c :: cs =>
      if c = '}' then some ([], cs)
      else if c = '"' then
        match parseStringRest fuel cs with
        | none => none
        | some (k, r1) =>
            match r1 with
            | ':' :: r2 =>
                match parseJ fuel r2 with
                | none => none
                | some (v, r3) =>
                    match r3 with
                    | ',' :: r4 =>
                        (parseFields fuel r4).map
                          (fun p => ((k, v) :: p.1, p.2))
                    | '}' :: r4 => some ([(k, v)], r4)
                    | _ => none
            | _ => none
      else none

end

mutual

/-- Fuel adequate for the parse of a printed value (one unit per parser
step; proved sufficient below). -/
def needJ : Json → Nat
  | .null => 1
  | .bool _ => 1
  | .num _ => 1
  | .str s => 1 + (s.data.length + 1)
  | .arr xs => 1 + needElems xs
  | .obj fs => 1 + needFields fs

def needElems : List Json → Nat
  | [] => 1
  | x :: xs => 1 + needJ x + needElems xs

def needFields : List (String × Json) → Nat
  | [] => 1
  | (k, v) :: fs => 1 + (k.data.length + 1) + needJ v + needFields fs

end

/-- A rest-input that cannot extend a number literal. -/
def NotDigitHead : List Char → Prop
  | [] => True
  | c :: _ => isDigitChar c = false

/-- Run the parser to completion on a whole text (`JSON.parse` model):
the value must consume the entire input. -/
def jsonParseAll (text : List Char) : Option Json :=
  match parseJ (2 * text.length + 2) text with
  | some (j, []) => some j
  | _ => none

/-! ## Backup codec: bundle encoding -/

/-- One optional object field: omitted when the value is absent (the
JS object carries `undefined`, which `JSON.stringify` drops). -/
def optSeg (k : String) (f : α → Json) (o : Option α) : List (String × Json) :=
  match o with
  | none => []
  | some x => [(k, f x)]

/-- Object field lookup (first occurrence). -/
def getField (fs : List (String × Json)) (k : String) : Option Json :=
  (fs.find? (fun f => f.1 = k)).map (fun f => f.2)

/-- String payload of a JSON value, if any. -/
def jStr : Json → Option String
  | .str s => some s
  | _ => none

/-- Numeric payload of a JSON value, if any. -/
def jNum : Json → Option Nat
  | .num n => some n
  | _ => none

/-- Boolean payload of a JSON value, if any. -/
def jBool : Json → Option Bool
  | .bool b => some b
  | _ => none

/-- Array payload of a JSON value, if any. -/
def jArr : Json → Option (List Json)
  | .arr xs => some xs
  | _ => none

/-- Read an optional field: an absent key is `none`, a present one must
decode. -/
def readOpt (dec : Json → Option α) (fs : List (String × Json))
    (k : String) : Option (Option α) :=
  match getField fs k with
  | none => some none
  | some v => (dec v).map some

/-- Read a required field. -/
def readReq (dec : Json → Option α) (fs : List (String × Json))
    (k : String) : Option α :=
  (getField fs k).bind dec

/-- Decode every element of a list, failing if any element fails. -/
def optTraverse (g : Json → Option α) : List Json → Option (List α)
  | [] => some []
  | j :: js =>
      match g j with
      | none => none
      | some a =>
          match optTraverse g js with
          | none => none
          | some as => some (a :: as)

/-- JSON form of an optional image list. -/
def imagesSeg (imgs : Option (List String)) : List (String × Json) :=
  optSeg "images" (fun l => Json.arr (l.map Json.str)) imgs

/-- JSON form of a stored message, mirroring the `StoredMessage` layout. -/
def messageToJson : StoredMessage → Json
  | .user i c imgs t =>
      .obj ([("id", .str i), ("kind", .str "user"), ("content", .str c)] ++
        imagesSeg imgs ++ [("created_at", .num t)])
  | .agent i sp c imgs t =>
      .obj ([("id", .str i), ("kind", .str "agent"), ("speaker", .str sp),
        ("content", .str c)] ++ imagesSeg imgs ++ [("created_at", .num t)])
  | .system i c t =>
      .obj [("id", .str i), ("kind", .str "system"), ("content", .str c),
        ("created_at", .num t)]

/-- Decode an optional image list. -/
def readImages (fs : List (String × Json)) : Option (Option (List String)) :=
  readOpt (fun j => (jArr j).bind (optTraverse jStr)) fs "images"

/-- Decode a stored message. -/
def messageFromJson : Json → Option StoredMessage
  | .obj fs => do
      let i ← readReq jStr fs "id"
      let kind ← readReq jStr fs "kind"
      let c ← readReq jStr fs "content"
      let t ← readReq jNum fs "created_at"
      if kind = "user" then
        let imgs ← readImages fs
        some (.user i c imgs t)
      else if kind = "agent" then
        let sp ← readReq jStr fs "speaker"
        let imgs ← readImages fs
        some (.agent i sp c imgs t)
      else if kind = "system" then
        some (.system i c t)
      else none
  | _ => none

/-- JSON form of an agent record. -/
def agentToJson (a : Agent) : Json :=
  .obj ([("name", .str a.name), ("system_prompt", .str a.system_prompt)] ++
    optSeg "avatar_url" Json.str a.avatar_url ++
    optSeg "model" Json.str a.model ++
    optSeg "custom_params" id a.custom_params ++
    optSeg "base_url" Json.str a.base_url ++
    optSeg "api_key" Json.str a.api_key ++
    optSeg "stream" Json.bool a.stream ++
    optSeg "order" Json.num a.order ++
    optSeg "temperature" Json.num a.temperature)

/-- Decode an agent record. -/
def agentFromJson : Json → Option Agent
  | .obj fs => do
      let name ← readReq jStr fs "name"
      let sp ← readReq jStr fs "system_prompt"
      let avatar ← readOpt jStr fs "avatar_url"
      let model ← readOpt jStr fs "model"
      let custom ← readOpt some fs "custom_params"
      let burl ← readOpt jStr fs "base_url"
      let akey ← readOpt jStr fs "api_key"
      let stream ← readOpt jBool fs "stream"
      let order ← readOpt jNum fs "order"
      let temp ← readOpt jNum fs "temperature"
      some { name := name, system_prompt := sp, avatar_url := avatar
             model := model, custom_params := custom, base_url := burl
             api_key := akey, stream := stream, order := order
             temperature := temp }
  | _ => none

/-- JSON form of a stored session. -/
def sessionToJson (s : StoredSession) : Json :=
  .obj ([("id", .str s.id), ("name", .str s.name),
    ("global_prompt", .str s.global_prompt),
    ("created_at", .num s.created_at), ("updated_at", .num s.updated_at),
    ("messages", .arr (s.messages.map messageToJson))] ++
    optSeg "order" Json.num s.order)

/-- Decode a stored session. -/
def sessionFromJson : Json → Option StoredSession
  | .obj fs => do
      let i ← readReq jStr fs "id"
      let name ← readReq jStr fs "name"
      let gp ← readReq jStr fs "global_prompt"
      let ca ← readReq jNum fs "created_at"
      let ua ← readReq jNum fs "updated_at"
      let msgs ← (readReq jArr fs "messages").bind
        (optTraverse messageFromJson)
      let order ← readOpt jNum fs "order"
      some { id := i, name := name, global_prompt := gp, created_at := ca
             updated_at := ua, messages := msgs, order := order }
  | _ => none

/-- JSON form of an export bundle, mirroring `ExportBundleV1`. -/
def bundleToJson (b : ExportBundleV1) : Json :=
  .obj [("app", .str b.app), ("version", .num b.version),
    ("exported_at", .num b.exported_at),
    ("agents", .arr (b.agents.map agentToJson)),
    ("sessions", .arr (b.sessions.map sessionToJson)),
    ("active_session_id",
      match b.active_session_id with
      | none => Json.null
      | some s => Json.str s)]

/-- Decode the nullable active-session id. -/
def activeFromJson : Json → Option (Option String)
  | .null => some none
  | .str s => some (some s)
  | _ => none

/-- Decode an export bundle (the shape the TS cast
`JSON.parse(text) as ExportBundleV1` assumes). -/
def bundleFromJson : Json → Option ExportBundleV1
  | .obj fs => do
      let app ← readReq jStr fs "app"
      let version ← readReq jNum fs "version"
      let ea ← readReq jNum fs "exported_at"
      let agents ← (readReq jArr fs "agents").bind (optTraverse agentFromJson)
      let sessions ← (readReq jArr fs "sessions").bind
        (optTraverse sessionFromJson)
      let active ← (readReq activeFromJson fs "active_session_id")
      some { app := app, version := version, exported_at := ea
             agents := agents, sessions := sessions
             active_session_id := active }
  | _ => none

/-! ## Backup codec: container layer (`backup.ts`) -/

/-- Lower-case an ASCII character (JS `toLowerCase`, ASCII part). -/
def lowerChar (c : Char) : Char :=
  if 65 ≤ c.toNat ∧ c.toNat ≤ 90 then Char.ofNat (c.toNat + 32) else c

/-- Whether a file name, lower-cased, ends in ".json". -/
def endsWithDotJson (s : String) : Bool :=
  (s.data.map lowerChar).reverse.take 5 = ['n', 'o', 's', 'j', '.']

/-- The `exportAsJson` operation of `backup.ts`: serialise the bundle
produced by `dbExportBundle` to JSON text (pretty-printing whitespace
elided in this model). -/
def exportAsJsonModel (store : Store) (now : Nat)
    (activeSessionId : Option String) : List Char :=
  jsonPrintChars (bundleToJson (dbExportBundle store now activeSessionId))

/-- The `exportAsZip` operation of `backup.ts`: a single-entry archive
holding the same text under the name "export.json" (the archive container
itself is the external `fflate` collaborator, modelled as its entry map). -/
def exportAsZipModel (store : Store) (now : Nat)
    (activeSessionId : Option String) : List (String × List Char) :=
  [("export.json", exportAsJsonModel store now activeSessionId)]

/-- The `pickExportJson` helper of `backup.ts`: prefer the entry named
"export.json", else the sole entry whose lower-cased name ends in ".json",
else fail. -/
def pickExportJson (files : List (String × List Char)) : Option (List Char) :=
  match files.find? (fun f => f.1 = "export.json") with
  | some f => some f.2
  | none =>
      match files.filter (fun f => endsWithDotJson f.1) with
      | [f] => some f.2
      | _ => none

/-- The `importFromJson` operation: parse the text and interpret it as a
bundle; `dbImportBundle` validation (tag and version) included, as the
source calls it before returning. -/
def importFromJsonModel (text : List Char) : Except String ExportBundleV1 :=
  match jsonParseAll text with
  | none => .error "invalid JSON"
  | some j =>
      match bundleFromJson j with
      | none => .error "invalid bundle shape"
      | some b =>
          if b.app ≠ "agent-group" ∨ b.version ≠ 1 then
            .error "Unsupported import file"
          else .ok b

/-- The `importFromZip` operation: locate the JSON entry, then proceed as
for plain JSON. -/
def importFromZipModel (files : List (String × List Char)) :
    Except String ExportBundleV1 :=
  match pickExportJson files with
  | none => .error "未找到 export.json"
  | some text => importFromJsonModel text

/-! ## Helper lemmas -/

theorem mapWithIdx_length (f : Nat → α → β) (l : List α) :
    (mapWithIdx f l).length = l.length := by
  induction l generalizing f with
  | nil => rfl
  | cons a as ih => simp [mapWithIdx, ih]

theorem map_mapWithIdx (f : Nat → α → β) (g : β → γ) (l : List α) :
    (mapWithIdx f l).map g = mapWithIdx (fun i a => g (f i a)) l := by
  induction l generalizing f with
  | nil => rfl
  | cons a as ih => simp [mapWithIdx, ih]

theorem mapWithIdx_const (g : α → β) (l : List α) :
    mapWithIdx (fun _ a => g a) l = l.map g := by
  induction l with
  | nil => rfl
  | cons a as ih => simpa [mapWithIdx] using ih

theorem mapWithIdx_range (g : Nat → β) (l : List α) :
    mapWithIdx (fun i _ => g i) l = (List.range l.length).map g := by
  induction l generalizing g with
  | nil => rfl
  | cons a as ih =>
      simp only [mapWithIdx, List.length_cons, List.range_succ_eq_map,
        List.map_cons, List.map_map]
      exact congrArg (g 0 :: ·) (ih (fun i => g (i + 1)))

theorem findIndex_eq_none (p : α → Bool) (l : List α)
    (h : ∀ a ∈ l, p a = false) : findIndex p l = none := by
  induction l with
  | nil => rfl
  | cons a as ih =>
      simp only [findIndex, h a (by simp)]
      rw [if_neg (by simp), ih (fun x hx => h x (by simp [hx]))]
      rfl

theorem findIndex_key_nodup (key : α → String) (x : String) (l : List α)
    (hn : (l.map key).Nodup) (k : Nat) (hk : k < l.length)
    (hx : key (l.get ⟨k, hk⟩) = x) :
    findIndex (fun a => key a = x) l = some k := by
  induction l generalizing k with
  | nil => exact absurd hk (Nat.not_lt_zero k)
  | cons a as ih =>
      rcases k with _ | k
      · simp only [List.get] at hx
        simp [findIndex, hx]
      · have hk2 : k < as.length := Nat.lt_of_succ_lt_succ hk
        have hxs : key (as.get ⟨k, hk2⟩) = x := hx
        have hmem : x ∈ as.map key := by
          exact hxs ▸ List.mem_map_of_mem key (as.get_mem k hk2)
        have hne : ¬ key a = x := by
          intro h
          exact (List.nodup_cons.mp (by simpa using hn)).1 (h ▸ hmem)
        simp only [findIndex]
        rw [if_neg (by simpa using hne),
          ih (List.nodup_cons.mp (by simpa using hn)).2 k hk2 hxs]
        rfl

theorem findIndex_lt_length (p : α → Bool) :
    ∀ (l : List α) (idx : Nat), findIndex p l = some idx → idx < l.length := by
  intro l
  induction l with
  | nil => intro idx h; cases h
  | cons a as ih =>
      intro idx h
      simp only [findIndex] at h
      by_cases hp : p a
      · rw [if_pos hp] at h
        cases h
        simp
      · rw [if_neg hp] at h
        rcases Option.map_eq_some'.mp h with ⟨j, hj, rfl⟩
        exact Nat.succ_lt_succ (ih j hj)

theorem mem_putKeyed {κ : Type} [DecidableEq κ] (key : α → κ)
    (l : List α) (a t : α) (h : t ∈ putKeyed key l a) : t = a ∨ t ∈ l := by
  unfold putKeyed at h
  split at h
  · obtain ⟨u, hu, he⟩ := List.mem_map.mp h
    by_cases hk : key u = key a
    · rw [if_pos hk] at he
      exact Or.inl he.symm
    · rw [if_neg hk] at he
      exact Or.inr (he ▸ hu)
  · rcases List.mem_append.mp h with h | h
    · exact Or.inr h
    · exact Or.inl (by simpa using h)

theorem putKeyed_of_fresh {κ : Type} [DecidableEq κ] (key : α → κ)
    (l : List α) (a : α) (h : ∀ t ∈ l, key t ≠ key a) :
    putKeyed key l a = l ++ [a] := by
  unfold putKeyed
  rw [if_neg]
  simp only [List.any_eq_true, decide_eq_true_eq, not_exists]
  intro t ht
  exact h t ht.1 ht.2

theorem foldl_putKeyed_eq {κ : Type} [DecidableEq κ] (key : α → κ) :
    ∀ (l acc : List α), (((acc ++ l).map key)).Nodup →
    l.foldl (putKeyed key) acc = acc ++ l
  | [], acc, _ => by simp
  | a :: as, acc, h => by
      have h2 : ((acc ++ [a] ++ as).map key).Nodup := by
        simpa [List.append_assoc] using h
      have hfresh : ∀ t ∈ acc, key t ≠ key a := by
        intro t ht hk
        have := (List.nodup_append.mp (by simpa using h)).2.2
        exact this (List.mem_map_of_mem key ht) (by simp [hk])
      calc (a :: as).foldl (putKeyed key) acc
          = as.foldl (putKeyed key) (putKeyed key acc a) := by rfl
        _ = as.foldl (putKeyed key) (acc ++ [a]) := by
              rw [putKeyed_of_fresh key acc a hfresh]
        _ = acc ++ [a] ++ as := foldl_putKeyed_eq key as (acc ++ [a]) h2
        _ = acc ++ (a :: as) := by simp

theorem withId_withId (m : StoredMessage) (x y : String) :
    (m.withId x).withId y = m.withId y := by
  cases m <;> rfl

theorem mid_withId (m : StoredMessage) (x : String) :
    (m.withId x).mid = x := by
  cases m <;> rfl

theorem demoGen_inj : Function.Injective demoGen := by
  intro a b h
  have h2 := congrArg (fun s : String => s.data.length) h
  simpa [demoGen] using h2

theorem demoGen_notin (n : Nat) (s : String) (c : Char) (hcs : c ∈ s.data)
    (hc : c ≠ 'f') : demoGen n ≠ s := by
  intro h
  have hd : List.replicate (n + 1) 'f' = s.data := congrArg String.data h
  rw [← hd] at hcs
  exact hc (List.eq_of_mem_replicate hcs)

theorem demoGen_fresh (n : Nat) :
    demoGen n ∉ demoSession.id :: demoSession.messages.map StoredMessage.mid := by
  intro h
  simp only [demoSession, demoMessages, List.map, StoredMessage.mid,
    List.mem_cons, List.mem_singleton] at h
  rcases h with h | h | h | h | h
  · exact demoGen_notin n "s1" 's' (by decide) (by decide) h
  · exact demoGen_notin n "m0" 'm' (by decide) (by decide) h
  · exact demoGen_notin n "m1" 'm' (by decide) (by decide) h
  · exact demoGen_notin n "m2" 'm' (by decide) (by decide) h
  · simp at h

/-- C1: for a stored session `S` holding the message with id `mid` at index
`k` (message ids unique within the session), `forkFromMessage` stores and
returns a new session whose message list is the prefix `[m0..mk]` of `S` in
content and order, each copied message carrying a freshly generated id that
is distinct from every id in `S` and from its siblings; the new session has
the fresh id `gen 0`, both timestamps equal to `now`, and `global_prompt`
copied verbatim.  When the source session or the message id is absent the
operation returns `none` and stores nothing. -/
theorem forkFromMessage_prefix (store : List StoredSession)
    (gen : Nat → String) (now : Nat) (sid mid : String)
    (newName : Option String) :
    (findSession store sid = none →
      dbForkSessionFromMessage store gen now sid mid newName = (none, store)) ∧
    (∀ S, findSession store sid = some S →
      (∀ m ∈ S.messages, m.mid ≠ mid) →
      dbForkSessionFromMessage store gen now sid mid newName = (none, store)) ∧
    (∀ S k (hk : k < S.messages.length),
      findSession store sid = some S →
      (S.messages.map StoredMessage.mid).Nodup →
      (S.messages.get ⟨k, hk⟩).mid = mid →
      Function.Injective gen →
      (∀ n, gen n ∉ S.id :: S.messages.map StoredMessage.mid) →
      ∃ F : StoredSession,
        dbForkSessionFromMessage store gen now sid mid newName =
          (some (toSessionSummary F), putSession store F) ∧
        F.id = gen 0 ∧ F.created_at = now ∧ F.updated_at = now ∧
        F.global_prompt = S.global_prompt ∧
        F.messages.length = k + 1 ∧
        F.messages.map (fun m => m.withId "") =
          (S.messages.take (k + 1)).map (fun m => m.withId "") ∧
        F.messages.map StoredMessage.mid =
          (List.range (k + 1)).map (fun i => gen (i + 1)) ∧
        (F.messages.map StoredMessage.mid).Nodup ∧
        (∀ i ∈ F.messages.map StoredMessage.mid,
          i ∉ S.messages.map StoredMessage.mid ∧ i ≠ S.id)) := by
  refine ⟨?_, ?_, ?_⟩
  · intro h
    simp only [dbForkSessionFromMessage, h]
  · intro S hS habs
    have hnone : findIndex (fun m => decide (m.mid = mid)) S.messages = none :=
      findIndex_eq_none _ _ (fun m hm => by simp [habs m hm])
    simp only [dbForkSessionFromMessage, hS, hnone]
  · intro S k hk hS hn hmid hinj hfresh
    have hk1 : k + 1 ≤ S.messages.length := hk
    have hfind : findIndex (fun m => decide (m.mid = mid)) S.messages = some k :=
      findIndex_key_nodup StoredMessage.mid mid S.messages hn k hk hmid
    have hlen : (S.messages.take (k + 1)).length = k + 1 := by
      simp [List.length_take, Nat.min_eq_left hk1]
    refine ⟨{ id := gen 0
              name := match newName with
                | some n => if n = "" then S.name ++ " (分支)" else n
                | none => S.name ++ " (分支)"
              global_prompt := S.global_prompt
              created_at := now
              updated_at := now
              messages := mapWithIdx (fun i m => m.withId (gen (i + 1)))
                (S.messages.take (k + 1))
              order := none },
            ?_, rfl, rfl, rfl, rfl, ?_, ?_, ?_, ?_, ?_⟩
    · simp only [dbForkSessionFromMessage, hS, hfind]
    · rw [mapWithIdx_length, hlen]
    · rw [map_mapWithIdx]
      simp only [withId_withId]
      exact mapWithIdx_const _ _
    · rw [map_mapWithIdx]
      simp only [mid_withId]
      rw [mapWithIdx_range, hlen]
    · rw [map_mapWithIdx]
      simp only [mid_withId]
      rw [mapWithIdx_range, hlen]
      refine List.Nodup.map ?_ (List.nodup_range (k + 1))
      intro a b h
      exact Nat.succ_injective (hinj h)
    · intro i hi
      rw [map_mapWithIdx] at hi
      simp only [mid_withId] at hi
      rw [mapWithIdx_range, hlen] at hi
      obtain ⟨j, _, rfl⟩ := List.mem_map.mp hi
      have := hfresh (j + 1)
      simp only [List.mem_cons, not_or] at this
      exact ⟨this.2, this.1⟩

/-- Witness for C1 at a concrete store: fork the three-message demo session
at its second message. -/
theorem forkFromMessage_prefix_w :
    ∃ F : StoredSession,
      dbForkSessionFromMessage demoStore demoGen 9 "s1" "m1" none =
        (some (toSessionSummary F), putSession demoStore F) ∧
      F.id = demoGen 0 ∧ F.created_at = 9 ∧ F.updated_at = 9 ∧
      F.global_prompt = demoSession.global_prompt ∧
      F.messages.length = 1 + 1 ∧
      F.messages.map (fun m => m.withId "") =
        (demoSession.messages.take (1 + 1)).map (fun m => m.withId "") ∧
      F.messages.map StoredMessage.mid =
        (List.range (1 + 1)).map (fun i => demoGen (i + 1)) ∧
      (F.messages.map StoredMessage.mid).Nodup ∧
      (∀ i ∈ F.messages.map StoredMessage.mid,
        i ∉ demoSession.messages.map StoredMessage.mid ∧ i ≠ demoSession.id) :=
  ( forkFromMessage_prefix demoStore demoGen 9 "s1" "m1" none).2.2
    demoSession 1 (by decide) (by rfl) (by decide) (by decide)
    demoGen_inj demoGen_fresh

/-- C2: importing a bundle whose `app` tag is not "agent-group" or whose
`version` is not 1 fails with an error before any store write, leaving both
collections exactly as they were; a matching bundle atomically replaces both
collections with the bundle's contents (keys being unique in a well-formed
bundle). -/
theorem importBundle_atomic (store : Store) (bundle : ExportBundleV1) :
    (¬ (bundle.app = "agent-group" ∧ bundle.version = 1) →
      dbImportBundle store bundle = (store, some "Unsupported import file")) ∧
    (bundle.app = "agent-group" → bundle.version = 1 →
      (dbImportBundle store bundle).2 = none ∧
      ((bundle.agents.map Agent.name).Nodup →
        (dbImportBundle store bundle).1.agents = bundle.agents) ∧
      ((bundle.sessions.map StoredSession.id).Nodup →
        (dbImportBundle store bundle).1.sessions = bundle.sessions)) := by
  constructor
  · intro h
    have hor : bundle.app ≠ "agent-group" ∨ bundle.version ≠ 1 := by tauto
    simp only [dbImportBundle, if_pos hor]
  · intro ha hv
    have hcond : ¬ (bundle.app ≠ "agent-group" ∨ bundle.version ≠ 1) := by
      simp [ha, hv]
    simp only [dbImportBundle, if_neg hcond]
    refine ⟨by trivial, ?_, ?_⟩
    · intro hnd
      exact foldl_putKeyed_eq Agent.name bundle.agents [] (by simpa using hnd)
    · intro hnd
      exact foldl_putKeyed_eq StoredSession.id bundle.sessions []
        (by simpa using hnd)

/-- Witness for C2: a version-2 bundle is rejected with the store unchanged;
a matching bundle replaces both collections. -/
theorem importBundle_atomic_w :
    dbImportBundle demoFullStore badBundle =
      (demoFullStore, some "Unsupported import file") ∧
    (dbImportBundle demoFullStore goodBundle).2 = none ∧
    (dbImportBundle demoFullStore goodBundle).1.agents = goodBundle.agents ∧
    (dbImportBundle demoFullStore goodBundle).1.sessions =
      goodBundle.sessions := by
  have hbad := (importBundle_atomic demoFullStore badBundle).1 (by decide)
  have hgood := (importBundle_atomic demoFullStore goodBundle).2 rfl rfl
  exact ⟨hbad, hgood.1, hgood.2.1 (by decide), hgood.2.2 (by decide)⟩

theorem insertByCreatedDesc_perm (s : StoredSession) (l : List StoredSession) :
    List.Perm (insertByCreatedDesc s l) (s :: l) := by
  induction l with
  | nil => exact List.Perm.refl _
  | cons t ts ih =>
      by_cases hc : t.created_at ≤ s.created_at
      · simp only [insertByCreatedDesc, if_pos hc]
        exact List.Perm.refl _
      · simp only [insertByCreatedDesc, if_neg hc]
        exact (ih.cons t).trans (List.Perm.swap s t ts)

theorem sortByCreatedDesc_perm (l : List StoredSession) :
    List.Perm (sortByCreatedDesc l) l := by
  induction l with
  | nil => exact List.Perm.refl _
  | cons s ss ih =>
      exact (insertByCreatedDesc_perm s (sortByCreatedDesc ss)).trans (ih.cons s)

theorem insertByCreatedDesc_pairwise (s : StoredSession)
    (l : List StoredSession)
    (h : l.Pairwise (fun a b => b.created_at ≤ a.created_at)) :
    (insertByCreatedDesc s l).Pairwise
      (fun a b => b.created_at ≤ a.created_at) := by
  induction l with
  | nil => simp [insertByCreatedDesc]
  | cons t ts ih =>
      rcases List.pairwise_cons.mp h with ⟨hts, htail⟩
      by_cases hc : t.created_at ≤ s.created_at
      · simp only [insertByCreatedDesc, if_pos hc]
        refine List.pairwise_cons.mpr ⟨?_, h⟩
        intro b hb
        rcases List.mem_cons.mp hb with rfl | hb
        · exact hc
        · exact le_trans (hts b hb) hc
      · simp only [insertByCreatedDesc, if_neg hc]
        refine List.pairwise_cons.mpr ⟨?_, ih htail⟩
        intro b hb
        rcases List.mem_cons.mp ((insertByCreatedDesc_perm s ts).mem_iff.mp hb)
          with rfl | hb
        · exact Nat.le_of_not_le hc
        · exact hts b hb

theorem sortByCreatedDesc_pairwise (l : List StoredSession) :
    (sortByCreatedDesc l).Pairwise (fun a b => b.created_at ≤ a.created_at) := by
  induction l with
  | nil => simp [sortByCreatedDesc]
  | cons s ss ih => exact insertByCreatedDesc_pairwise s _ ih

theorem insertByCreatedDesc_eraseOrder (s : StoredSession)
    (l : List StoredSession) :
    insertByCreatedDesc (eraseOrder s) (l.map eraseOrder) =
      (insertByCreatedDesc s l).map eraseOrder := by
  induction l with
  | nil => rfl
  | cons t ts ih =>
      by_cases hc : t.created_at ≤ s.created_at
      · simp only [List.map_cons, insertByCreatedDesc, if_pos hc, eraseOrder]
      · simp only [List.map_cons, insertByCreatedDesc, if_neg hc, eraseOrder]
        simp only [eraseOrder] at ih
        rw [ih]

theorem sortByCreatedDesc_eraseOrder (l : List StoredSession) :
    sortByCreatedDesc (l.map eraseOrder) =
      (sortByCreatedDesc l).map eraseOrder := by
  induction l with
  | nil => rfl
  | cons s ss ih =>
      simp only [List.map_cons, sortByCreatedDesc, ih]
      exact insertByCreatedDesc_eraseOrder s (sortByCreatedDesc ss)

/-- C7 (amended): `listSessions` returns exactly one summary per stored
session, sorted by `created_at` descending (newest first); any `order` field
carried by the stored sessions is ignored by the operation. -/
theorem listSessions_sorted (store : List StoredSession) :
    List.Perm (dbListSessions store) (store.map toSessionSummary) ∧
    (dbListSessions store).Pairwise
      (fun a b => b.created_at ≤ a.created_at) ∧
    dbListSessions (store.map eraseOrder) = dbListSessions store := by
  refine ⟨(sortByCreatedDesc_perm store).map toSessionSummary, ?_, ?_⟩
  · have hp := sortByCreatedDesc_pairwise store
    unfold dbListSessions
    exact List.Pairwise.map toSessionSummary (fun a b h => h) hp
  · unfold dbListSessions
    rw [sortByCreatedDesc_eraseOrder, List.map_map]
    rfl

/-- C7 counterexample: both stored sessions carry an explicit `order` field
(`orderedA` before `orderedB` in ascending `order`), yet `listSessions`
returns them sorted by `created_at` descending — `orderedB` first — not
ascending by `order`. -/
theorem listSessions_order_counterexample :
    orderedA.order = some 0 ∧ orderedB.order = some 1 ∧
    toSessionSummary orderedA ≠ toSessionSummary orderedB ∧
    dbListSessions [orderedA, orderedB] =
      [toSessionSummary orderedB, toSessionSummary orderedA] := by
  refine ⟨rfl, rfl, by decide, by decide⟩

theorem storeWf_put (store : List StoredSession) (s : StoredSession)
    (hw : StoreWf store) (hs : SessionWf s) : StoreWf (putSession store s) :=
  fun t ht => (mem_putKeyed _ _ _ _ ht).elim (fun e => e ▸ hs) (fun hm => hw t hm)

theorem findSession_mem (store : List StoredSession) (sid : String)
    (S : StoredSession) (h : findSession store sid = some S) : S ∈ store :=
  List.mem_of_find?_eq_some h

/-- C8: the invariant `updated_at ≥ created_at` is preserved by every store
operation, assuming non-decreasing clock reads: `createSession` and fork give
new records both timestamps equal to `now` (leaving old records untouched),
and every message-list mutation and session update stamps `updated_at := now`
with `now` at least the affected session's `created_at`. -/
theorem timestamps_monotone (store : List StoredSession) (now : Nat)
    (freshId : String) (gen : Nat → String) (cname cgp sid mid c : String)
    (nameU gpU : Option String) (newName : Option String)
    (item : TranscriptItem)
    (hw : StoreWf store) (hc : ClockLe now store) :
    (StoreWf (dbCreateSession store freshId now cname cgp).2 ∧
     ∀ s ∈ (dbCreateSession store freshId now cname cgp).2,
       s ∈ store ∨ (s.created_at = now ∧ s.updated_at = now)) ∧
    (StoreWf (dbForkSessionFromMessage store gen now sid mid newName).2 ∧
     ∀ s ∈ (dbForkSessionFromMessage store gen now sid mid newName).2,
       s ∈ store ∨ (s.created_at = now ∧ s.updated_at = now)) ∧
    StoreWf (dbUpdateSession store now sid nameU gpU) ∧
    (∀ r, dbAppendMessage store freshId now sid item = .ok r → StoreWf r.2) ∧
    (∀ r, dbUpsertMessage store now sid item = .ok r → StoreWf r) ∧
    StoreWf (dbUpdateMessageContent store now sid mid c).2 ∧
    StoreWf (dbDeleteMessage store now sid mid).2 := by
  refine ⟨⟨?_, ?_⟩, ⟨?_, ?_⟩, ?_, ?_, ?_, ?_, ?_⟩
  · exact storeWf_put _ _ hw (le_refl now)
  · intro s hs
    rcases mem_putKeyed _ _ _ _ hs with rfl | hm
    · exact Or.inr ⟨rfl, rfl⟩
    · exact Or.inl hm
  · cases hf : findSession store sid with
    | none => simpa [dbForkSessionFromMessage, hf] using hw
    | some S =>
        cases hi : findIndex (fun m => decide (m.mid = mid)) S.messages with
        | none => simpa [dbForkSessionFromMessage, hf, hi] using hw
        | some idx =>
            simp only [dbForkSessionFromMessage, hf, hi]
            exact storeWf_put _ _ hw (le_refl now)
  · intro s hs
    cases hf : findSession store sid with
    | none =>
        rw [dbForkSessionFromMessage, hf] at hs
        exact Or.inl hs
    | some S =>
        cases hi : findIndex (fun m => decide (m.mid = mid)) S.messages with
        | none =>
            rw [dbForkSessionFromMessage, hf] at hs
            simp only [hi] at hs
            exact Or.inl hs
        | some idx =>
            rw [dbForkSessionFromMessage, hf] at hs
            simp only [hi] at hs
            rcases mem_putKeyed _ _ _ _ hs with rfl | hm
            · exact Or.inr ⟨rfl, rfl⟩
            · exact Or.inl hm
  · cases hf : findSession store sid with
    | none => simpa [dbUpdateSession, hf] using hw
    | some S =>
        simp only [dbUpdateSession, hf]
        exact storeWf_put _ _ hw (hc S (findSession_mem store sid S hf))
  · intro r hr
    cases hf : findSession store sid with
    | none => rw [dbAppendMessage, hf] at hr; cases hr
    | some S =>
        rw [dbAppendMessage, hf] at hr
        cases hr
        exact storeWf_put _ _ hw (hc S (findSession_mem store sid S hf))
  · intro r hr
    cases hf : findSession store sid with
    | none => rw [dbUpsertMessage, hf] at hr; cases hr
    | some S =>
        rw [dbUpsertMessage, hf] at hr
        cases hi : findIndex (fun m => decide (m.mid = item.tid)) S.messages with
        | none =>
            simp only [hi] at hr
            cases hr
            exact storeWf_put _ _ hw (hc S (findSession_mem store sid S hf))
        | some idx =>
            simp only [hi] at hr
            cases hr
            exact storeWf_put _ _ hw (hc S (findSession_mem store sid S hf))
  · cases hf : findSession store sid with
    | none => simpa [dbUpdateMessageContent, hf] using hw
    | some S =>
        cases hi : findIndex (fun m => decide (m.mid = mid)) S.messages with
        | none => simpa [dbUpdateMessageContent, hf, hi] using hw
        | some idx =>
            cases hg : S.messages.get? idx with
            | none =>
                have hlt := findIndex_lt_length _ _ _ hi
                have hge := List.get?_eq_none.mp hg
                exact absurd hlt (Nat.not_lt.mpr hge)
            | some msg =>
                simp only [dbUpdateMessageContent, hf, hi, hg]
                refine storeWf_put _ _ hw ?_
                exact hc S (findSession_mem store sid S hf)
  · cases hf : findSession store sid with
    | none => simpa [dbDeleteMessage, hf] using hw
    | some S =>
        by_cases hl : (S.messages.filter (fun m => m.mid ≠ mid)).length =
            S.messages.length
        · simp only [dbDeleteMessage, hf]
          rw [if_pos hl]
          exact hw
        · simp only [dbDeleteMessage, hf]
          rw [if_neg hl]
          exact storeWf_put _ _ hw (hc S (findSession_mem store sid S hf))

/-- Witness for C8 on the demo store at a clock value past its records. -/
theorem timestamps_monotone_w :
    StoreWf (dbUpdateSession demoStore 20 "s1" (some "renamed") none) ∧
    StoreWf (dbDeleteMessage demoStore 20 "s1" "m1").2 := by
  have h := timestamps_monotone demoStore 20 "fresh" demoGen "n" "g" "s1" "m1"
    "c" (some "renamed") none none (.user "" "x" none)
    (by intro s hs; simp only [demoStore, List.mem_singleton] at hs
        subst hs; exact (by simp [SessionWf, demoSession] : SessionWf demoSession))
    (by intro s hs; simp only [demoStore, List.mem_singleton] at hs
        subst hs; exact (by simp [demoSession] : demoSession.created_at ≤ 20))
  exact ⟨h.2.2.1, h.2.2.2.2.2.2⟩

/-- C10: `deleteMessage` removes every message whose id equals the given id,
returns `true` exactly when at least one was present, keeps all other
messages in their original relative order, and when it returns `false` the
session record (including `updated_at`) is not rewritten. -/
theorem deleteMessage_filter (store : List StoredSession) (now : Nat)
    (sid mid : String) :
    (findSession store sid = none →
      dbDeleteMessage store now sid mid = (false, store)) ∧
    (∀ S, findSession store sid = some S →
      ((dbDeleteMessage store now sid mid).1 = true ↔
        ∃ m ∈ S.messages, m.mid = mid) ∧
      ((∀ m ∈ S.messages, m.mid ≠ mid) →
        dbDeleteMessage store now sid mid = (false, store)) ∧
      ((∃ m ∈ S.messages, m.mid = mid) →
        dbDeleteMessage store now sid mid =
          (true, putSession store
            { S with updated_at := now
                     messages :=
                       S.messages.filter (fun m => m.mid ≠ mid) }))) := by
  constructor
  · intro h
    simp [dbDeleteMessage, h]
  · intro S hS
    have hiff : (S.messages.filter (fun m => m.mid ≠ mid)).length =
        S.messages.length ↔ ∀ m ∈ S.messages, m.mid ≠ mid := by
      rw [List.filter_length_eq_length]
      constructor
      · intro h m hm
        simpa using h m hm
      · intro h m hm
        simpa using h m hm
    by_cases hl : (S.messages.filter (fun m => m.mid ≠ mid)).length =
        S.messages.length
    · have hnone : ∀ m ∈ S.messages, m.mid ≠ mid := hiff.mp hl
      refine ⟨?_, ?_, ?_⟩
      · simp only [dbDeleteMessage, hS]
        rw [if_pos hl]
        constructor
        · intro h
          exact (Bool.false_ne_true h).elim
        · rintro ⟨m, hm, he⟩
          exact absurd he (hnone m hm)
      · intro _
        simp only [dbDeleteMessage, hS]
        rw [if_pos hl]
      · rintro ⟨m, hm, he⟩
        exact absurd he (hnone m hm)
    · have hex : ∃ m ∈ S.messages, m.mid = mid := by
        by_contra hne
        push_neg at hne
        exact hl (hiff.mpr hne)
      refine ⟨?_, ?_, ?_⟩
      · simp only [dbDeleteMessage, hS]
        rw [if_neg hl]
        exact ⟨fun _ => hex, fun _ => rfl⟩
      · intro hnone
        exact absurd hex (by push_neg; exact fun m hm => hnone m hm)
      · intro _
        simp only [dbDeleteMessage, hS]
        rw [if_neg hl]

/-- Witness for C10: deleting an existing and a missing id in the demo
session. -/
theorem deleteMessage_filter_w :
    ((dbDeleteMessage demoStore 9 "s1" "m1").1 = true ↔
      ∃ m ∈ demoSession.messages, m.mid = "m1") ∧
    dbDeleteMessage demoStore 9 "s1" "nope" = (false, demoStore) := by
  constructor
  · exact ((deleteMessage_filter demoStore 9 "s1" "m1").2 demoSession rfl).1
  · exact ((deleteMessage_filter demoStore 9 "s1" "nope").2 demoSession
      rfl).2.1 (by decide)

theorem setAgentFinal_user_mem (t : List TranscriptItem) (i c : String)
    (uid uc : String) (uimgs : Option (List String))
    (h : TranscriptItem.user uid uc uimgs ∈ t) :
    TranscriptItem.user uid uc uimgs ∈ setAgentFinal t i c := by
  unfold setAgentFinal
  simpa using List.mem_map_of_mem _ h

theorem appendAgentContent_user_mem (t : List TranscriptItem)
    (i delta : String) (uid uc : String) (uimgs : Option (List String))
    (h : TranscriptItem.user uid uc uimgs ∈ t) :
    TranscriptItem.user uid uc uimgs ∈ appendAgentContent t i delta := by
  unfold appendAgentContent
  simpa using List.mem_map_of_mem _ h

theorem runAgents_user_mem (agentsList : List Agent)
    (outcome : Nat → LlmOutcome) (gen : Nat → String) :
    ∀ (names : List String) (k : Nat)
      (working transcript upserts : List TranscriptItem)
      (invoked : List String) (uid uc : String) (uimgs : Option (List String)),
      TranscriptItem.user uid uc uimgs ∈ transcript →
      TranscriptItem.user uid uc uimgs ∈
        (runAgents agentsList outcome gen names k working transcript upserts
          invoked).transcript := by
  intro names
  induction names with
  | nil =>
      intro k working transcript upserts invoked uid uc uimgs h
      simpa [runAgents] using h
  | cons name rest ih =>
      intro k working transcript upserts invoked uid uc uimgs h
      cases hfind : agentsList.find? (fun a => a.name = name) with
      | none =>
          simp only [runAgents, hfind]
          exact ih k working transcript upserts invoked uid uc uimgs h
      | some ag =>
          cases houtcome : outcome k with
          | aborted p =>
              simp only [runAgents, hfind, houtcome]
              exact appendAgentContent_user_mem _ _ _ _ _ _
                (List.mem_append_left _ h)
          | ok c =>
              simp only [runAgents, hfind, houtcome]
              exact ih _ _ _ _ _ uid uc uimgs
                (setAgentFinal_user_mem _ _ _ _ _ _ (List.mem_append_left _ h))
          | err m =>
              simp only [runAgents, hfind, houtcome]
              exact ih _ _ _ _ _ uid uc uimgs
                (setAgentFinal_user_mem _ _ _ _ _ _ (List.mem_append_left _ h))

theorem sendMessage_userPersist (agentsList : List Agent)
    (outcome : Nat → LlmOutcome) (uid : String) (gen : Nat → String)
    (prev : List TranscriptItem) (message : String) (images : List String) :
    (sendMessage agentsList outcome uid gen prev message images).userPersist =
      .user uid (userContent message images) (some images) := by
  cases h : (parseMentionedAgents message agentsList).isEmpty with
  | true => simp only [sendMessage, h, if_true]
  | false => simp only [sendMessage, h, Bool.false_eq_true, if_false]

/-- C9: a submission with empty text and a non-empty image list appends and
persists a user message whose content is the literal placeholder "[图片]";
with empty text and no images the content is the empty string (and non-empty
text is kept verbatim); the same rule governs `addMessageOnly`.  The user
item is present in the final transcript. -/
theorem userPlaceholder (agentsList : List Agent) (outcome : Nat → LlmOutcome)
    (uid : String) (gen : Nat → String) (prev : List TranscriptItem)
    (message : String) (images : List String) :
    (message = "" → images ≠ [] →
      (sendMessage agentsList outcome uid gen prev message images).userPersist =
        .user uid "[图片]" (some images) ∧
      (addMessageOnly uid prev message images).1 =
        .user uid "[图片]" (some images)) ∧
    (message = "" → images = [] →
      (sendMessage agentsList outcome uid gen prev message images).userPersist =
        .user uid "" (some images) ∧
      (addMessageOnly uid prev message images).1 =
        .user uid "" (some images)) ∧
    (message ≠ "" →
      (sendMessage agentsList outcome uid gen prev message images).userPersist =
        .user uid message (some images) ∧
      (addMessageOnly uid prev message images).1 =
        .user uid message (some images)) ∧
    TranscriptItem.user uid (userContent message images) (some images) ∈
      (sendMessage agentsList outcome uid gen prev message images).transcript := by
  have huc1 : message = "" → images ≠ [] → userContent message images = "[图片]" := by
    intro hm hi
    have : images.length > 0 := List.length_pos.mpr hi
    simp [userContent, hm, this]
  have huc2 : message = "" → images = [] → userContent message images = "" := by
    intro hm hi
    simp [userContent, hm, hi]
  have huc3 : message ≠ "" → userContent message images = message := by
    intro hm
    simp [userContent, hm]
  refine ⟨?_, ?_, ?_, ?_⟩
  · intro hm hi
    rw [sendMessage_userPersist, huc1 hm hi]
    exact ⟨rfl, by simp [addMessageOnly, huc1 hm hi]⟩
  · intro hm hi
    rw [sendMessage_userPersist, huc2 hm hi]
    exact ⟨rfl, by simp [addMessageOnly, huc2 hm hi]⟩
  · intro hm
    rw [sendMessage_userPersist, huc3 hm]
    exact ⟨rfl, by simp [addMessageOnly, huc3 hm]⟩
  · cases h : (parseMentionedAgents message agentsList).isEmpty with
    | true =>
        simp only [sendMessage, h, if_true]
        exact List.mem_append_right _ (by simp)
    | false =>
        simp only [sendMessage, h, Bool.false_eq_true, if_false]
        exact runAgents_user_mem agentsList outcome gen _ 0 _ _ _ _ uid _ _
          (List.mem_append_right _ (by simp))

/-- Witness for C9: empty text with one image yields the "[图片]" placeholder
in both the persisted user message and `addMessageOnly`. -/
theorem userPlaceholder_w :
    (sendMessage [] (fun _ => .ok "") "u1" demoGen [] "" ["i"]).userPersist =
      .user "u1" "[图片]" (some ["i"]) ∧
    (addMessageOnly "u1" [] "" ["i"]).1 = .user "u1" "[图片]" (some ["i"]) :=
  (userPlaceholder [] (fun _ => .ok "") "u1" demoGen [] "" ["i"]).1 rfl
    (by decide)

theorem dedupKeepFirst_cons (x : String) (xs : List String) :
    dedupKeepFirst (x :: xs) = x :: dedupKeepFirst (xs.filter (fun y => y ≠ x)) := by
  rw [dedupKeepFirst]

theorem mem_dedupKeepFirst : ∀ (l : List String) (a : String),
    a ∈ dedupKeepFirst l → a ∈ l
  | [], a, h => by simp [dedupKeepFirst] at h
  | x :: xs, a, h => by
      rw [dedupKeepFirst_cons] at h
      rcases List.mem_cons.mp h with rfl | h2
      · exact List.mem_cons_self _ _
      · exact List.mem_cons_of_mem x
          (List.mem_of_mem_filter (mem_dedupKeepFirst _ a h2))
  termination_by l _ _ => l.length
  decreasing_by
    simp only [List.length_cons]
    exact Nat.lt_succ_of_le (List.length_filter_le _ _)

theorem nodup_dedupKeepFirst : ∀ (l : List String), (dedupKeepFirst l).Nodup
  | [] => by simp [dedupKeepFirst]
  | x :: xs => by
      rw [dedupKeepFirst_cons]
      refine List.nodup_cons.mpr ⟨?_, nodup_dedupKeepFirst _⟩
      intro hx
      have := List.of_mem_filter (mem_dedupKeepFirst _ x hx)
      simp at this
  termination_by l => l.length
  decreasing_by
    simp only [List.length_cons]
    exact Nat.lt_succ_of_le (List.length_filter_le _ _)

theorem filter_contains_cons (L : List String) (name : String)
    (seen : List String) :
    L.filter (fun x => !((name :: seen).contains x)) =
      (L.filter (fun x => !(seen.contains x))).filter (fun y => y ≠ name) := by
  rw [List.filter_filter]
  apply List.filter_congr
  intro x _
  by_cases h1 : x = name <;> by_cases h2 : seen.contains x <;>
    simp [List.contains_cons, h1, h2]

theorem pickMentioned_eq (names : List String) :
    ∀ (l seen : List String),
      pickMentioned names seen l =
        dedupKeepFirst ((l.filter (fun x => names.contains x)).filter
          (fun x => !(seen.contains x)))
  | [], seen => by simp [pickMentioned, dedupKeepFirst]
  | name :: rest, seen => by
      by_cases hn : names.contains name = true
      · by_cases hs : seen.contains name = true
        · rw [show pickMentioned names seen (name :: rest) =
                pickMentioned names seen rest by
              simp only [pickMentioned]; rw [if_pos hn, if_pos hs]]
          rw [pickMentioned_eq names rest seen,
            List.filter_cons_of_pos hn,
            List.filter_cons_of_neg (by simpa using hs)]
        · rw [show pickMentioned names seen (name :: rest) =
                name :: pickMentioned names (name :: seen) rest by
              simp only [pickMentioned]; rw [if_pos hn, if_neg hs]]
          have hsf : seen.contains name = false := by simpa using hs
          rw [pickMentioned_eq names rest (name :: seen),
            List.filter_cons_of_pos hn,
            List.filter_cons_of_pos (by simpa using hsf),
            dedupKeepFirst_cons, filter_contains_cons]
      · rw [show pickMentioned names seen (name :: rest) =
              pickMentioned names seen rest by
            simp only [pickMentioned]; rw [if_neg hn]]
        rw [pickMentioned_eq names rest seen,
          List.filter_cons_of_neg (by simpa using hn)]

theorem parseMentionedAgents_eq (message : String) (agentsList : List Agent) :
    parseMentionedAgents message agentsList =
      dedupKeepFirst ((mentionScan message.data).filter
        (fun n => (agentsList.map Agent.name).contains n)) := by
  unfold parseMentionedAgents
  by_cases h : (mentionScan message.data).isEmpty
  · have he : mentionScan message.data = [] := by
      simpa using h
    simp [h, he, dedupKeepFirst]
  · have hb : (mentionScan message.data).isEmpty = false := by
      simpa using h
    simp only [hb, Bool.false_eq_true, if_false]
    rw [pickMentioned_eq]
    congr 1
    simp

/-- C4: mention extraction returns exactly the `@Name` tokens of the text
that name a currently known agent, in order of first occurrence with
duplicates removed keeping the first; unknown mentions are dropped; and when
the resulting list is empty, `sendMessage` appends and persists only the
user message and performs no agent invocation and no store upsert. -/
theorem mentionParsing (message : String) (agentsList : List Agent)
    (outcome : Nat → LlmOutcome) (uid : String) (gen : Nat → String)
    (prev : List TranscriptItem) (images : List String) :
    parseMentionedAgents message agentsList =
      dedupKeepFirst ((mentionScan message.data).filter
        (fun n => (agentsList.map Agent.name).contains n)) ∧
    (parseMentionedAgents message agentsList).Nodup ∧
    (∀ n ∈ parseMentionedAgents message agentsList,
      n ∈ agentsList.map Agent.name ∧ n ∈ mentionScan message.data) ∧
    (parseMentionedAgents message agentsList = [] →
      sendMessage agentsList outcome uid gen prev message images =
        { transcript :=
            prev ++ [.user uid (userContent message images) (some images)]
          userPersist := .user uid (userContent message images) (some images)
          upserts := []
          invoked := []
          halted := false }) := by
  refine ⟨parseMentionedAgents_eq message agentsList, ?_, ?_, ?_⟩
  · rw [parseMentionedAgents_eq]
    exact nodup_dedupKeepFirst _
  · intro n hn
    rw [parseMentionedAgents_eq] at hn
    have hf := mem_dedupKeepFirst _ n hn
    refine ⟨?_, List.mem_of_mem_filter hf⟩
    have := List.of_mem_filter hf
    simpa using this
  · intro h
    simp only [sendMessage, h, List.isEmpty_nil, if_true]

/-- Witness for C4: a message mentioning only the unknown name Zed parses to
no mentions, and the submission appends just the user message with no
invocation. -/
theorem mentionParsing_w :
    parseMentionedAgents "hi @Zed" [demoAlice, demoBob] = [] ∧
    sendMessage [demoAlice, demoBob] (fun _ => .ok "yo") "u1" demoGen []
        "hi @Zed" [] =
      { transcript := [.user "u1" (userContent "hi @Zed" []) (some [])]
        userPersist := .user "u1" (userContent "hi @Zed" []) (some [])
        upserts := []
        invoked := []
        halted := false } := by
  refine ⟨by decide, ?_⟩
  have h := (mentionParsing "hi @Zed" [demoAlice, demoBob] (fun _ => .ok "yo")
    "u1" demoGen [] []).2.2.2 (by decide)
  rw [h]
  rfl

/-- C3: inside one submission's sequential loop, a non-cancellation failure
of the LLM call for one mentioned agent replaces that agent's placeholder
content with the visible "[调用失败] <message>" marker, clears its streaming
flag, persists the marker entry, and continues with the remaining mentioned
agents; a cancellation (`AbortError`) stops the loop at once: no remaining
agent is invoked, no failure marker is written (the placeholder keeps the
streamed partial content with its streaming flag still set), and nothing is
persisted for the cancelled agent. -/
theorem failureContinuesAbortStops (agentsList : List Agent)
    (outcome : Nat → LlmOutcome) (gen : Nat → String) (name : String)
    (rest : List String) (k : Nat)
    (working transcript upserts : List TranscriptItem)
    (invoked : List String) (ag : Agent)
    (hfind : agentsList.find? (fun a => a.name = name) = some ag) :
    (∀ m, outcome k = .err m →
      runAgents agentsList outcome gen (name :: rest) k working transcript
          upserts invoked =
        runAgents agentsList outcome gen rest (k + 1)
          (working ++ [.agent (gen k) name ("[调用失败] " ++ m) none none])
          (setAgentFinal (transcript ++ [.agent (gen k) name "" none (some true)])
            (gen k) ("[调用失败] " ++ m))
          (upserts ++ [.agent (gen k) name ("[调用失败] " ++ m) none none])
          (invoked ++ [name]) ∧
      (setAgentFinal (transcript ++ [.agent (gen k) name "" none (some true)])
          (gen k) ("[调用失败] " ++ m)).getLast? =
        some (.agent (gen k) name ("[调用失败] " ++ m) none (some false))) ∧
    (∀ p, outcome k = .aborted p →
      runAgents agentsList outcome gen (name :: rest) k working transcript
          upserts invoked =
        { transcript := appendAgentContent
            (transcript ++ [.agent (gen k) name "" none (some true)]) (gen k) p
          upserts := upserts
          invoked := invoked ++ [name]
          halted := true } ∧
      (appendAgentContent
          (transcript ++ [.agent (gen k) name "" none (some true)])
          (gen k) p).getLast? =
        some (.agent (gen k) name p none (some true))) := by
  constructor
  · intro m hm
    constructor
    · simp only [runAgents, hfind, hm]
    · rw [show setAgentFinal
            (transcript ++ [.agent (gen k) name "" none (some true)])
            (gen k) ("[调用失败] " ++ m) =
          setAgentFinal transcript (gen k) ("[调用失败] " ++ m) ++
            [.agent (gen k) name ("[调用失败] " ++ m) none (some false)] by
          simp [setAgentFinal]]
      exact List.getLast?_concat _
  · intro p hp
    constructor
    · simp only [runAgents, hfind, hp]
    · rw [show appendAgentContent
            (transcript ++ [.agent (gen k) name "" none (some true)])
            (gen k) p =
          appendAgentContent transcript (gen k) p ++
            [.agent (gen k) name p none (some true)] by
          simp [appendAgentContent]]
      exact List.getLast?_concat _

/-- Witness for C3 at a concrete two-agent mention batch: a failing call on
Alice continues into Bob's turn with the marker finalized; an aborting call
on Alice halts with nothing persisted. -/
theorem failureContinuesAbortStops_w :
    (runAgents [demoAlice, demoBob] (fun _ => .err "boom") demoGen
        ["Alice", "Bob"] 0 [] [] [] [] =
      runAgents [demoAlice, demoBob] (fun _ => .err "boom") demoGen ["Bob"] 1
        [.agent (demoGen 0) "Alice" ("[调用失败] " ++ "boom") none none]
        (setAgentFinal ([] ++ [.agent (demoGen 0) "Alice" "" none (some true)])
          (demoGen 0) ("[调用失败] " ++ "boom"))
        [.agent (demoGen 0) "Alice" ("[调用失败] " ++ "boom") none none]
        ["Alice"]) ∧
    (runAgents [demoAlice, demoBob] (fun _ => .aborted "par") demoGen
        ["Alice", "Bob"] 0 [] [] [] [] =
      { transcript := appendAgentContent
          ([] ++ [.agent (demoGen 0) "Alice" "" none (some true)])
          (demoGen 0) "par"
        upserts := []
        invoked := [] ++ ["Alice"]
        halted := true }) := by
  have herr := ((failureContinuesAbortStops [demoAlice, demoBob]
    (fun _ => .err "boom") demoGen "Alice" ["Bob"] 0 [] [] [] [] demoAlice
    rfl).1 "boom" rfl).1
  have habort := ((failureContinuesAbortStops [demoAlice, demoBob]
    (fun _ => .aborted "par") demoGen "Alice" ["Bob"] 0 [] [] [] [] demoAlice
    rfl).2 "par" rfl).1
  constructor
  · rw [herr]
    rfl
  · rw [habort]

theorem historyMessages_eq (t : Agent) (l : List TranscriptItem) :
    historyMessages t l =
      (l.filter (fun i => !(i.isSystemKind))).map (historyEntry t) := by
  induction l with
  | nil => rfl
  | cons item rest ih =>
      cases hs : item.isSystemKind with
      | true => simp [historyMessages, hs, List.filter_cons, ih]
      | false => simp [historyMessages, hs, List.filter_cons, ih]

theorem historyEntry_role (t : Agent) (item : TranscriptItem) :
    (historyEntry t item).role =
      if (match item with
          | .agent _ s _ _ _ => decide (s = t.name)
          | _ => false) then OpenAiRole.assistant else OpenAiRole.user := by
  cases item with
  | user i c imgs =>
      cases imgs with
      | none => rfl
      | some l =>
          by_cases hl : l.length > 0 <;>
            simp [historyEntry, historyEntry.itemImages, hl]
  | system i c => rfl
  | agent i s c imgs st =>
      cases imgs with
      | none => simp [historyEntry, historyEntry.itemImages]
      | some l =>
          by_cases hl : l.length > 0 <;>
            simp [historyEntry, historyEntry.itemImages, hl]

theorem historyEntry_role_assistant_iff (t : Agent) (item : TranscriptItem) :
    (historyEntry t item).role = .assistant ↔
      ∃ i c imgs st, item = .agent i t.name c imgs st := by
  constructor
  · intro h
    rw [historyEntry_role] at h
    cases item with
    | agent i s c imgs st =>
        by_cases hs : s = t.name
        · exact ⟨i, c, imgs, st, by rw [hs]⟩
        · rw [if_neg (by simpa using hs)] at h
          exact absurd h (by decide)
    | user i c imgs =>
        rw [if_neg (by simp)] at h
        exact absurd h (by decide)
    | system i c =>
        rw [if_neg (by simp)] at h
        exact absurd h (by decide)
  · rintro ⟨i, c, imgs, st, rfl⟩
    rw [historyEntry_role]
    simp

theorem historyEntry_content_user (t : Agent) (i c : String) :
    (historyEntry t (.user i c none)).content = .str ("[用户]: " ++ c) := rfl

theorem historyEntry_content_agent_other (t : Agent) (i s c : String)
    (st : Option Bool) (h : s ≠ t.name) :
    (historyEntry t (.agent i s c none st)).content =
      .str ("[" ++ s ++ "]: " ++ c) := by
  simp [historyEntry, historyEntry.itemImages, h, speakerForItem, TranscriptItem.content]

theorem historyEntry_content_agent_self (t : Agent) (i c : String)
    (st : Option Bool) :
    (historyEntry t (.agent i t.name c none st)).content = .str c := by
  simp [historyEntry, historyEntry.itemImages, TranscriptItem.content]

theorem historyEntry_content_agent_other_images (t : Agent) (i s c : String)
    (imgs : List String) (st : Option Bool) (h : s ≠ t.name)
    (himgs : imgs ≠ []) (hc : jsTrim c ≠ "") :
    (historyEntry t (.agent i s c (some imgs) st)).content =
      .parts (.text ("[" ++ s ++ "]: " ++ jsTrim c) ::
        imgs.map (fun im => .imageUrl (imageDataUri im))) := by
  have hlen : imgs.length > 0 := List.length_pos.mpr himgs
  simp [historyEntry, historyEntry.itemImages, h, hlen, hc, speakerForItem, TranscriptItem.content]

/-- C5 (amended): `buildOpenAiMessages` returns one leading system message —
the agent's system prompt with the **trimmed** global prompt appended as a
delimited suffix block exactly when the global prompt is non-empty after
trimming whitespace, and the prompt alone otherwise — followed by one entry
per history item excluding system-kind items; an entry's role is `assistant`
exactly when the item is an agent message by the target agent, and every
non-target item's text content carries the "[SpeakerName]: " label prefix. -/
theorem buildMessages_shape (targetAgent : Agent) (globalPrompt : Option String)
    (history : List TranscriptItem) :
    buildOpenAiMessages targetAgent globalPrompt history =
      ⟨.system, .str (systemContent targetAgent globalPrompt)⟩ ::
        (history.filter (fun i => !(i.isSystemKind))).map
          (historyEntry targetAgent) ∧
    (∀ g, globalPrompt = some g → jsTrim g ≠ "" →
      systemContent targetAgent globalPrompt =
        targetAgent.system_prompt ++ "\n\n[当前讨论组的全局设定/背景]:\n" ++
          jsTrim g) ∧
    (∀ g, globalPrompt = some g → jsTrim g = "" →
      systemContent targetAgent globalPrompt = targetAgent.system_prompt) ∧
    (globalPrompt = none →
      systemContent targetAgent globalPrompt = targetAgent.system_prompt) ∧
    (∀ item, (historyEntry targetAgent item).role = .assistant ↔
      ∃ i c imgs st, item = .agent i targetAgent.name c imgs st) ∧
    (∀ i c, (historyEntry targetAgent (.user i c none)).content =
      .str ("[用户]: " ++ c)) ∧
    (∀ i s c st, s ≠ targetAgent.name →
      (historyEntry targetAgent (.agent i s c none st)).content =
        .str ("[" ++ s ++ "]: " ++ c)) ∧
    (∀ i c st,
      (historyEntry targetAgent (.agent i targetAgent.name c none st)).content =
        .str c) ∧
    (∀ i s c imgs st, s ≠ targetAgent.name → imgs ≠ [] → jsTrim c ≠ "" →
      (historyEntry targetAgent (.agent i s c (some imgs) st)).content =
        .parts (.text ("[" ++ s ++ "]: " ++ jsTrim c) ::
          imgs.map (fun im => .imageUrl (imageDataUri im)))) := by
  refine ⟨?_, ?_, ?_, ?_, ?_, ?_, ?_, ?_, ?_⟩
  · unfold buildOpenAiMessages
    rw [historyMessages_eq]
  · intro g hg ht
    subst hg
    simp [systemContent, ht]
  · intro g hg ht
    subst hg
    simp [systemContent, ht]
  · intro hg
    subst hg
    rfl
  · exact historyEntry_role_assistant_iff targetAgent
  · exact historyEntry_content_user targetAgent
  · exact fun i s c st h => historyEntry_content_agent_other targetAgent i s c st h
  · exact fun i c st => historyEntry_content_agent_self targetAgent i c st
  · exact fun i s c imgs st h h2 h3 =>
      historyEntry_content_agent_other_images targetAgent i s c imgs st h h2 h3

/-- Witness for C5 on a concrete agent, global prompt and history. -/
theorem buildMessages_shape_w :
    buildOpenAiMessages demoAgentA (some " g ") [.user "u" "hello" none] =
      ⟨.system, .str (systemContent demoAgentA (some " g "))⟩ ::
        (([.user "u" "hello" none] :
            List TranscriptItem).filter (fun i => !(i.isSystemKind))).map
          (historyEntry demoAgentA) ∧
    systemContent demoAgentA (some " g ") =
      demoAgentA.system_prompt ++ "\n\n[当前讨论组的全局设定/背景]:\n" ++
        jsTrim " g " ∧
    (historyEntry demoAgentA (.agent "x" "A" "hi" none none)).role =
      .assistant ∧
    (historyEntry demoAgentA (.agent "y" "B" "hm" none (some false))).content =
      .str ("[" ++ "B" ++ "]: " ++ "hm") := by
  have h := buildMessages_shape demoAgentA (some " g ") [.user "u" "hello" none]
  refine ⟨h.1, h.2.1 " g " rfl (by decide), ?_, ?_⟩
  · exact (h.2.2.2.2.1 (.agent "x" "A" "hi" none none)).mpr
      ⟨"x", "hi", none, none, rfl⟩
  · exact h.2.2.2.2.2.2.1 "y" "B" "hm" (some false) (by decide)

/-- C5 counterexample: the global prompt " " is non-empty, yet the system
entry is the agent's prompt alone — no suffix block is appended, because the
source tests the prompt after trimming; and appending any non-empty suffix
would have changed the content. -/
theorem buildMessages_trim_counterexample :
    (" " : String) ≠ "" ∧
    demoAgentA.system_prompt = "P" ∧
    buildOpenAiMessages demoAgentA (some " ") [] =
      [⟨.system, .str "P"⟩] ∧
    ∀ sfx : String, sfx ≠ "" → ("P" : String) ≠ "P" ++ sfx := by
  refine ⟨by decide, rfl, by decide, ?_⟩
  intro sfx h hxeq
  have hl := congrArg String.length hxeq
  rw [String.length_append] at hl
  have hz : sfx.length = 0 := by omega
  have hd : sfx.data = [] := List.length_eq_zero.mp hz
  apply h
  cases sfx with
  | mk d =>
      cases hd
      rfl

theorem digitChar_isDigit (d : Nat) (h : d < 10) :
    isDigitChar (digitChar d) = true := by
  interval_cases d <;> decide

theorem digitVal_digitChar (d : Nat) (h : d < 10) :
    digitVal (digitChar d) = d := by
  interval_cases d <;> decide

theorem natChars_ne_nil (n : Nat) : natChars n ≠ [] := by
  rw [natChars]
  split <;> simp

theorem natChars_digits (n : Nat) :
    ∀ c ∈ natChars n, isDigitChar c = true := by
  induction n using Nat.strong_induction_on with
  | _ n ih =>
      intro c hc
      rw [natChars] at hc
      split at hc
      · rename_i h
        rw [List.mem_singleton] at hc
        exact hc ▸ digitChar_isDigit n h
      · rename_i h
        rcases List.mem_append.mp hc with h2 | h2
        · exact ih (n / 10) (Nat.div_lt_self (by omega) (by omega)) c h2
        · rw [List.mem_singleton] at h2
          exact h2 ▸ digitChar_isDigit (n % 10) (Nat.mod_lt n (by omega))

theorem natFromChars_natChars (n : Nat) :
    natFromChars (natChars n) = n := by
  induction n using Nat.strong_induction_on with
  | _ n ih =>
      rw [natChars]
      split
      · rename_i h
        simp [natFromChars, digitVal_digitChar n h]
      · rename_i h
        have ih1 := ih (n / 10) (Nat.div_lt_self (by omega) (by omega))
        simp only [natFromChars, List.foldl_append, List.foldl_cons,
          List.foldl_nil]
        simp only [natFromChars] at ih1
        rw [ih1, digitVal_digitChar (n % 10) (Nat.mod_lt n (by omega))]
        omega

theorem digits_take_drop (l rest : List Char)
    (hl : ∀ c ∈ l, isDigitChar c = true) (hr : NotDigitHead rest) :
    (l ++ rest).takeWhile isDigitChar = l ∧
    (l ++ rest).dropWhile isDigitChar = rest := by
  induction l with
  | nil =>
      simp only [List.nil_append]
      cases rest with
      | nil => simp
      | cons c cs =>
          have hc : isDigitChar c = false := hr
          simp [List.takeWhile_cons, List.dropWhile_cons, hc]
  | cons a as ih =>
      have ha := hl a (by simp)
      have h2 := ih (fun c hc => hl c (by simp [hc]))
      simp [List.takeWhile_cons, List.dropWhile_cons, ha, h2.1, h2.2]

theorem digit_ne_dispatch (d : Char) (h : isDigitChar d = true) :
    d ≠ 'n' ∧ d ≠ 't' ∧ d ≠ 'f' ∧ d ≠ '"' ∧ d ≠ '[' ∧ d ≠ '{' := by
  have h2 : 48 ≤ d.toNat ∧ d.toNat ≤ 57 := by
    simpa [isDigitChar] using h
  refine ⟨?_, ?_, ?_, ?_, ?_, ?_⟩ <;> intro he <;> subst he <;> revert h2 <;>
    decide

theorem hexVal_hexDigit (m : Nat) (h : m < 16) :
    hexVal (hexDigit m) = some m := by
  interval_cases m <;> decide

theorem stringMk_data (s : String) : String.mk s.data = s := by
  cases s
  rfl

theorem parseString_roundtrip :
    ∀ (l : List Char) (fuel : Nat) (rest : List Char),
      l.length + 1 ≤ fuel →
      parseStringRest fuel (escChars l ++ '"' :: rest) =
        some (String.mk l, rest) := by
  intro l
  induction l with
  | nil =>
      intro fuel rest hf
      cases fuel with
      | zero => omega
      | succ f => simp [escChars, parseStringRest]
  | cons c cs ih =>
      intro fuel rest hf
      cases fuel with
      | zero => simp at hf
      | succ f =>
          have hih := ih f rest (by simp only [List.length_cons] at hf; omega)
          by_cases h1 : c = '"'
          · subst h1
            simp [escChars, escChar, parseStringRest, hih]
          · by_cases h2 : c = '\\'
            · subst h2
              simp [escChars, escChar, parseStringRest, hih]
            · by_cases h3 : c.toNat < 32
              · have hdiv : c.toNat / 16 < 16 := by omega
                have hmod : c.toNat % 16 < 16 := Nat.mod_lt _ (by omega)
                simp only [escChars, escChar, h1, h2, h3, if_false, if_true,
                  ite_true, ite_false, List.cons_append, List.nil_append,
                  List.append_assoc]
                simp only [parseStringRest,
                  show ('\\' : Char) ≠ '"' by decide, if_false,
                  show (('\\' : Char) = '\\') = True by simp, if_true,
                  show (('u' : Char) = '"' ∨ ('u' : Char) = '\\') = False by
                    simp, if_false,
                  show (('u' : Char) = 'u') = True by simp, if_true,
                  hexVal_hexDigit _ hdiv, hexVal_hexDigit _ hmod,
                  show hexVal '0' = some 0 by decide, hih]
                have hv : ((0 * 16 + 0) * 16 + c.toNat / 16) * 16 +
                    c.toNat % 16 = c.toNat := by omega
                rw [hv, Char.ofNat_toNat]
                rfl
              · have hne : escChar c = [c] := by
                  simp [escChar, h1, h2, h3]
                simp only [escChars, hne, List.cons_append, List.nil_append]
                simp [parseStringRest, h1, h2, hih]

theorem needJ_pos (j : Json) : 1 ≤ needJ j := by
  cases j <;> simp [needJ]

theorem needElems_pos (xs : List Json) : 1 ≤ needElems xs := by
  cases xs with
  | nil => simp [needElems]
  | cons x xs => simp [needElems]; omega

theorem needFields_pos (fs : List (String × Json)) : 1 ≤ needFields fs := by
  cases fs with
  | nil => simp [needFields]
  | cons f fs => rcases f with ⟨k, v⟩; simp [needFields]; omega

theorem print_head_ne_rbracket (j : Json) :
    ∃ d ds, jsonPrintChars j = d :: ds ∧ d ≠ ']' := by
  cases j with
  | null => exact ⟨'n', ['u', 'l', 'l'], by simp [jsonPrintChars], by decide⟩
  | bool b =>
      cases b
      · exact ⟨'f', ['a', 'l', 's', 'e'], by simp [jsonPrintChars], by decide⟩
      · exact ⟨'t', ['r', 'u', 'e'], by simp [jsonPrintChars], by decide⟩
  | num n =>
      obtain ⟨d, ds, hnc⟩ := List.exists_cons_of_ne_nil (natChars_ne_nil n)
      have hd : isDigitChar d = true := natChars_digits n d (by rw [hnc]; simp)
      refine ⟨d, ds, by simp [jsonPrintChars, hnc], ?_⟩
      intro he
      subst he
      exact absurd hd (by decide)
  | str s =>
      exact ⟨'"', escChars s.data ++ ['"'],
        by simp [jsonPrintChars, printStringChars], by decide⟩
  | arr xs =>
      exact ⟨'[', printElems xs ++ [']'], by simp [jsonPrintChars], by decide⟩
  | obj fs =>
      exact ⟨'{', printFields fs ++ ['}'], by simp [jsonPrintChars], by decide⟩

theorem parse_print (fuel : Nat) :
    (∀ j rest, needJ j ≤ fuel → NotDigitHead rest →
      parseJ fuel (jsonPrintChars j ++ rest) = some (j, rest)) ∧
    (∀ xs rest, needElems xs ≤ fuel →
      parseElems fuel (printElems xs ++ ']' :: rest) = some (xs, rest)) ∧
    (∀ fs rest, needFields fs ≤ fuel →
      parseFields fuel (printFields fs ++ '}' :: rest) = some (fs, rest)) := by
  induction fuel with
  | zero =>
      refine ⟨?_, ?_, ?_⟩
      · intro j rest h _
        exact absurd h (by have := needJ_pos j; omega)
      · intro xs rest h
        exact absurd h (by have := needElems_pos xs; omega)
      · intro fs rest h
        exact absurd h (by have := needFields_pos fs; omega)
  | succ f ih =>
      obtain ⟨ihJ, ihE, ihF⟩ := ih
      refine ⟨?_, ?_, ?_⟩
      · intro j rest hneed hdelim
        cases j with
        | null => simp [jsonPrintChars, parseJ]
        | bool b => cases b <;> simp [jsonPrintChars, parseJ]
        | num n =>
            obtain ⟨d, ds, hnc⟩ :=
              List.exists_cons_of_ne_nil (natChars_ne_nil n)
            have hd : isDigitChar d = true :=
              natChars_digits n d (by rw [hnc]; simp)
            obtain ⟨hn1, hn2, hn3, hn4, hn5, hn6⟩ := digit_ne_dispatch d hd
            have htd := digits_take_drop (natChars n) rest
              (natChars_digits n) hdelim
            rw [show jsonPrintChars (.num n) = natChars n by
              simp [jsonPrintChars], hnc]
            simp only [List.cons_append, parseJ]
            rw [if_neg hn1, if_neg hn2, if_neg hn3, if_neg hn4, if_neg hn5,
              if_neg hn6, if_pos hd]
            rw [show d :: (ds ++ rest) = natChars n ++ rest by
              rw [hnc]; simp]
            rw [htd.1, htd.2, natFromChars_natChars]
        | str s =>
            have hlen : s.data.length + 1 ≤ f := by
              have he : needJ (.str s) = 1 + (s.data.length + 1) := by
                simp [needJ]
              omega
            rw [show jsonPrintChars (.str s) ++ rest =
              '"' :: (escChars s.data ++ '"' :: rest) by
              simp [jsonPrintChars, printStringChars]]
            simp only [parseJ]
            rw [if_neg (by decide : ¬ ('"' : Char) = 'n'),
              if_neg (by decide : ¬ ('"' : Char) = 't'),
              if_neg (by decide : ¬ ('"' : Char) = 'f'),
              if_pos (show True from trivial)]
            rw [parseString_roundtrip s.data f rest hlen, stringMk_data]
            rfl
        | arr xs =>
            have hne : needElems xs ≤ f := by
              have he : needJ (.arr xs) = 1 + needElems xs := by simp [needJ]
              omega
            rw [show jsonPrintChars (.arr xs) ++ rest =
              '[' :: (printElems xs ++ ']' :: rest) by
              simp [jsonPrintChars]]
            simp only [parseJ]
            rw [if_neg (by decide : ¬ ('[' : Char) = 'n'),
              if_neg (by decide : ¬ ('[' : Char) = 't'),
              if_neg (by decide : ¬ ('[' : Char) = 'f'),
              if_neg (by decide : ¬ ('[' : Char) = '"'),
              if_pos (show True from trivial)]
            rw [ihE xs rest hne]
            rfl
        | obj fs =>
            have hne : needFields fs ≤ f := by
              have he : needJ (.obj fs) = 1 + needFields fs := by simp [needJ]
              omega
            rw [show jsonPrintChars (.obj fs) ++ rest =
              '{' :: (printFields fs ++ '}' :: rest) by
              simp [jsonPrintChars]]
            simp only [parseJ]
            rw [if_neg (by decide : ¬ ('{' : Char) = 'n'),
              if_neg (by decide : ¬ ('{' : Char) = 't'),
              if_neg (by decide : ¬ ('{' : Char) = 'f'),
              if_neg (by decide : ¬ ('{' : Char) = '"'),
              if_neg (by decide : ¬ ('{' : Char) = '['),
              if_pos (show True from trivial)]
            rw [ihF fs rest hne]
            rfl
      · intro xs rest hneed
        cases xs with
        | nil =>
            simp [printElems, parseElems]
        | cons x xs2 =>
            obtain ⟨d, ds, hpr, hdne⟩ := print_head_ne_rbracket x
            have hnx : needJ x ≤ f := by
              have he : needElems (x :: xs2) = 1 + needJ x + needElems xs2 := by
                simp [needElems]
              have := needElems_pos xs2
              omega
            cases xs2 with
            | nil =>
                rw [show printElems [x] ++ ']' :: rest =
                  jsonPrintChars x ++ ']' :: rest by simp [printElems]]
                rw [hpr]
                simp only [List.cons_append, parseElems]
                rw [if_neg hdne]
                simp only [List.append_eq]
                rw [show d :: (ds ++ ']' :: rest) =
                  jsonPrintChars x ++ ']' :: rest by rw [hpr]; simp]
                rw [ihJ x (']' :: rest) hnx
                  (by simp only [NotDigitHead]; decide)]
                rfl
            | cons y ys =>
                have hny : needElems (y :: ys) ≤ f := by
                  have he : needElems (x :: y :: ys) =
                      1 + needJ x + needElems (y :: ys) := by
                    simp [needElems]
                  omega
                rw [show printElems (x :: y :: ys) ++ ']' :: rest =
                  jsonPrintChars x ++
                    ',' :: (printElems (y :: ys) ++ ']' :: rest) by
                  simp [printElems]]
                rw [hpr]
                simp only [List.cons_append, parseElems]
                rw [if_neg hdne]
                simp only [List.append_eq]
                rw [show d :: (ds ++
                  ',' :: (printElems (y :: ys) ++ ']' :: rest)) =
                  jsonPrintChars x ++
                    ',' :: (printElems (y :: ys) ++ ']' :: rest) by
                  rw [hpr]; simp]
                rw [ihJ x _ hnx (by simp only [NotDigitHead]; decide)]
                simp only []
                rw [ihE (y :: ys) rest hny]
                rfl
      · intro fs rest hneed
        cases fs with
        | nil =>
            simp [printFields, parseFields]
        | cons kv fs2 =>
            rcases kv with ⟨k, v⟩
            have hkl : k.data.length + 1 ≤ f := by
              have he : needFields ((k, v) :: fs2) =
                  1 + (k.data.length + 1) + needJ v + needFields fs2 := by
                simp [needFields]
              have := needJ_pos v
              have := needFields_pos fs2
              omega
            have hnv : needJ v ≤ f := by
              have he : needFields ((k, v) :: fs2) =
                  1 + (k.data.length + 1) + needJ v + needFields fs2 := by
                simp [needFields]
              have := needFields_pos fs2
              omega
            cases fs2 with
            | nil =>
                rw [show printFields [(k, v)] ++ '}' :: rest =
                  '"' :: (escChars k.data ++
                    '"' :: (':' :: (jsonPrintChars v ++ '}' :: rest))) by
                  simp [printFields, printStringChars]]
                simp only [parseFields]
                rw [if_neg (by decide : ¬ ('"' : Char) = '}'),
                  if_pos (show True from trivial)]
                rw [parseString_roundtrip k.data f _ hkl, stringMk_data]
                simp only []
                rw [ihJ v ('}' :: rest) hnv
                  (by simp only [NotDigitHead]; decide)]
                rfl
            | cons kv2 fs3 =>
                have hnf : needFields (kv2 :: fs3) ≤ f := by
                  have he : needFields ((k, v) :: kv2 :: fs3) =
                      1 + (k.data.length + 1) + needJ v +
                        needFields (kv2 :: fs3) := by
                    simp [needFields]
                  omega
                rw [show printFields ((k, v) :: kv2 :: fs3) ++ '}' :: rest =
                  '"' :: (escChars k.data ++
                    '"' :: (':' :: (jsonPrintChars v ++
                      ',' :: (printFields (kv2 :: fs3) ++ '}' :: rest)))) by
                  simp [printFields, printStringChars]]
                simp only [parseFields]
                rw [if_neg (by decide : ¬ ('"' : Char) = '}'),
                  if_pos (show True from trivial)]
                rw [parseString_roundtrip k.data f _ hkl, stringMk_data]
                simp only []
                rw [ihJ v _ hnv (by simp only [NotDigitHead]; decide)]
                simp only []
                rw [ihF (kv2 :: fs3) rest hnf]
                rfl

theorem escChars_len_ge (l : List Char) : l.length ≤ (escChars l).length := by
  induction l with
  | nil => simp [escChars]
  | cons c cs ih =>
      have h1 : 1 ≤ (escChar c).length := by
        unfold escChar
        split_ifs <;> simp
      simp only [escChars, List.length_append, List.length_cons]
      omega

mutual

theorem needJ_le_print (j : Json) : needJ j ≤ 2 * (jsonPrintChars j).length := by
  cases j with
  | null => simp [needJ, jsonPrintChars]
  | bool b => cases b <;> simp [needJ, jsonPrintChars]
  | num n =>
      have h := List.length_pos.mpr (natChars_ne_nil n)
      simp only [needJ, jsonPrintChars]
      omega
  | str s =>
      have h := escChars_len_ge s.data
      simp only [needJ, jsonPrintChars, printStringChars, List.length_cons,
        List.length_append]
      simp only [List.length_cons, List.length_nil]
      omega
  | arr xs =>
      have h := needElems_le_print xs
      simp only [needJ, jsonPrintChars, List.length_cons, List.length_append]
      simp only [List.length_cons, List.length_nil]
      omega
  | obj fs =>
      have h := needFields_le_print fs
      simp only [needJ, jsonPrintChars, List.length_cons, List.length_append]
      simp only [List.length_cons, List.length_nil]
      omega

theorem needElems_le_print (xs : List Json) :
    needElems xs ≤ 2 * (printElems xs).length + 2 := by
  cases xs with
  | nil => simp [needElems, printElems]
  | cons x xs2 =>
      cases xs2 with
      | nil =>
          have h := needJ_le_print x
          simp only [needElems, printElems, List.length_nil]
          omega
      | cons y ys =>
          have h1 := needJ_le_print x
          have h2 := needElems_le_print (y :: ys)
          simp only [needElems] at h2
          simp only [needElems, printElems, List.length_append,
            List.length_cons]
          omega

theorem needFields_le_print (fs : List (String × Json)) :
    needFields fs ≤ 2 * (printFields fs).length + 2 := by
  cases fs with
  | nil => simp [needFields, printFields]
  | cons kv fs2 =>
      rcases kv with ⟨k, v⟩
      cases fs2 with
      | nil =>
          have h1 := needJ_le_print v
          have h2 := escChars_len_ge k.data
          simp only [needFields, printFields, printStringChars,
            List.length_append, List.length_cons, List.length_nil]
          omega
      | cons kv2 fs3 =>
          have h1 := needJ_le_print v
          have h2 := escChars_len_ge k.data
          have h3 := needFields_le_print (kv2 :: fs3)
          rcases kv2 with ⟨k2, v2⟩
          simp only [needFields] at h3
          simp only [needFields, printFields, printStringChars,
            List.length_append, List.length_cons, List.length_nil]
          omega

end

theorem jsonParseAll_print (j : Json) :
    jsonParseAll (jsonPrintChars j) = some j := by
  unfold jsonParseAll
  have h := (parse_print (2 * (jsonPrintChars j).length + 2)).1 j []
    (by have := needJ_le_print j; omega) trivial
  rw [List.append_nil] at h
  rw [h]

theorem getField_cons_self (k : String) (v : Json)
    (fs : List (String × Json)) : getField ((k, v) :: fs) k = some v := by
  unfold getField
  rw [List.find?_cons_of_pos _ (by simp)]
  rfl

theorem getField_cons_ne (k k2 : String) (v : Json)
    (fs : List (String × Json)) (h : k2 ≠ k) :
    getField ((k2, v) :: fs) k = getField fs k := by
  unfold getField
  rw [List.find?_cons_of_neg _ (by simp [h])]

theorem getField_optSeg_ne {α : Type} (k k2 : String) (f : α → Json)
    (o : Option α) (fs : List (String × Json)) (h : k2 ≠ k) :
    getField (optSeg k2 f o ++ fs) k = getField fs k := by
  cases o with
  | none => simp [optSeg]
  | some x =>
      simp only [optSeg, List.singleton_append]
      exact getField_cons_ne k k2 (f x) fs h

theorem getField_optSeg_self {α : Type} (k : String) (f : α → Json)
    (o : Option α) (fs : List (String × Json))
    (hnone : getField fs k = none) :
    getField (optSeg k f o ++ fs) k = o.map f := by
  cases o with
  | none => simpa [optSeg]
  | some x =>
      simp only [optSeg, List.singleton_append]
      simpa using getField_cons_self k (f x) fs

theorem getField_optSeg_last_ne {α : Type} (k k2 : String) (f : α → Json)
    (o : Option α) (h : k2 ≠ k) : getField (optSeg k2 f o) k = none := by
  cases o with
  | none => rfl
  | some x =>
      simp only [optSeg]
      unfold getField
      rw [List.find?_cons_of_neg _ (by simp [h])]
      rfl

theorem getField_optSeg_last_self {α : Type} (k : String) (f : α → Json)
    (o : Option α) : getField (optSeg k f o) k = o.map f := by
  cases o with
  | none => rfl
  | some x => simpa using getField_cons_self k (f x) []

theorem getField_nil (k : String) : getField [] k = none := rfl

theorem readOpt_of_getField {α : Type} (dec : Json → Option α) (f : α → Json)
    (hdf : ∀ x, dec (f x) = some x) (k : String) (o : Option α)
    (fs : List (String × Json)) (hg : getField fs k = o.map f) :
    readOpt dec fs k = some o := by
  unfold readOpt
  rw [hg]
  cases o with
  | none => rfl
  | some x => simp [hdf]

theorem optTraverse_map {α : Type} (g : Json → Option α) (f : α → Json)
    (h : ∀ a, g (f a) = some a) (l : List α) :
    optTraverse g (l.map f) = some l := by
  induction l with
  | nil => rfl
  | cons a as ih => simp [optTraverse, h, ih]

theorem jStr_str (s : String) : jStr (Json.str s) = some s := rfl

theorem jNum_num (n : Nat) : jNum (Json.num n) = some n := rfl

theorem jBool_bool (b : Bool) : jBool (Json.bool b) = some b := rfl

theorem imagesDec_arr (l : List String) :
    (jArr (Json.arr (l.map Json.str))).bind (optTraverse jStr) = some l := by
  simp only [jArr, Option.some_bind]
  exact optTraverse_map jStr Json.str (fun a => rfl) l

theorem messageFromJson_toJson (m : StoredMessage) :
    messageFromJson (messageToJson m) = some m := by
  cases m with
  | user i c imgs t =>
      have himgs : readImages
          ([("id", Json.str i), ("kind", Json.str "user"),
            ("content", Json.str c)] ++ imagesSeg imgs ++
            [("created_at", Json.num t)]) = some imgs := by
        refine readOpt_of_getField _ _ (fun l => imagesDec_arr l) _ imgs _ ?_
        simp [imagesSeg, getField_cons_ne, getField_optSeg_self,
          getField_cons_self, getField_nil, List.append_assoc]
      simp only [imagesSeg, List.cons_append, List.nil_append,
        List.append_assoc] at himgs
      simp [messageToJson, messageFromJson, readReq, himgs,
        getField_cons_self, getField_cons_ne, getField_optSeg_ne,
        imagesSeg, jStr, jNum, List.append_assoc]
  | agent i sp c imgs t =>
      have himgs : readImages
          ([("id", Json.str i), ("kind", Json.str "agent"),
            ("speaker", Json.str sp), ("content", Json.str c)] ++
            imagesSeg imgs ++ [("created_at", Json.num t)]) = some imgs := by
        refine readOpt_of_getField _ _ (fun l => imagesDec_arr l) _ imgs _ ?_
        simp [imagesSeg, getField_cons_ne, getField_optSeg_self,
          getField_cons_self, getField_nil, List.append_assoc]
      simp only [imagesSeg, List.cons_append, List.nil_append,
        List.append_assoc] at himgs
      simp [messageToJson, messageFromJson, readReq, himgs,
        getField_cons_self, getField_cons_ne, getField_optSeg_ne,
        imagesSeg, jStr, jNum, List.append_assoc]
  | system i c t =>
      simp [messageToJson, messageFromJson, readReq, readImages, readOpt,
        getField_cons_self, getField_cons_ne, getField_nil, jStr, jNum]

theorem sessionFromJson_toJson (s : StoredSession) :
    sessionFromJson (sessionToJson s) = some s := by
  have htrav : ∀ l : List StoredMessage,
      optTraverse messageFromJson (l.map messageToJson) = some l :=
    optTraverse_map _ _ messageFromJson_toJson
  have horder : readOpt jNum
      (("id", Json.str s.id) :: ("name", Json.str s.name) ::
        ("global_prompt", Json.str s.global_prompt) ::
        ("created_at", Json.num s.created_at) ::
        ("updated_at", Json.num s.updated_at) ::
        ("messages", Json.arr (s.messages.map messageToJson)) ::
        optSeg "order" Json.num s.order) "order" = some s.order := by
    refine readOpt_of_getField jNum Json.num (fun x => rfl) _ s.order _ ?_
    simp [getField_cons_ne, getField_optSeg_last_self]
  simp [sessionToJson, sessionFromJson, readReq, horder, htrav,
    getField_cons_self, getField_cons_ne, getField_optSeg_ne,
    getField_optSeg_last_ne, jStr, jNum, jArr, List.append_assoc]

theorem agentFromJson_toJson (a : Agent) :
    agentFromJson (agentToJson a) = some a := by
  have hbase : agentToJson a = Json.obj
      (("name", Json.str a.name) :: ("system_prompt", Json.str a.system_prompt) ::
        (optSeg "avatar_url" Json.str a.avatar_url ++
          (optSeg "model" Json.str a.model ++
            (optSeg "custom_params" id a.custom_params ++
              (optSeg "base_url" Json.str a.base_url ++
                (optSeg "api_key" Json.str a.api_key ++
                  (optSeg "stream" Json.bool a.stream ++
                    (optSeg "order" Json.num a.order ++
                      optSeg "temperature" Json.num a.temperature)))))))) := by
    simp [agentToJson, List.append_assoc]
  rw [hbase]
  have hav : readOpt jStr
      (("name", Json.str a.name) :: ("system_prompt", Json.str a.system_prompt) ::
        (optSeg "avatar_url" Json.str a.avatar_url ++
          (optSeg "model" Json.str a.model ++
            (optSeg "custom_params" id a.custom_params ++
              (optSeg "base_url" Json.str a.base_url ++
                (optSeg "api_key" Json.str a.api_key ++
                  (optSeg "stream" Json.bool a.stream ++
                    (optSeg "order" Json.num a.order ++
                      optSeg "temperature" Json.num a.temperature))))))))
      "avatar_url" = some a.avatar_url := by
    refine readOpt_of_getField jStr Json.str (fun x => rfl) _ a.avatar_url _ ?_
    simp [getField_cons_ne, getField_optSeg_ne, getField_optSeg_self,
      getField_optSeg_last_ne]
  have hmo : readOpt jStr
      (("name", Json.str a.name) :: ("system_prompt", Json.str a.system_prompt) ::
        (optSeg "avatar_url" Json.str a.avatar_url ++
          (optSeg "model" Json.str a.model ++
            (optSeg "custom_params" id a.custom_params ++
              (optSeg "base_url" Json.str a.base_url ++
                (optSeg "api_key" Json.str a.api_key ++
                  (optSeg "stream" Json.bool a.stream ++
                    (optSeg "order" Json.num a.order ++
                      optSeg "temperature" Json.num a.temperature))))))))
      "model" = some a.model := by
    refine readOpt_of_getField jStr Json.str (fun x => rfl) _ a.model _ ?_
    simp [getField_cons_ne, getField_optSeg_ne, getField_optSeg_self,
      getField_optSeg_last_ne]
  have hcp : readOpt some
      (("name", Json.str a.name) :: ("system_prompt", Json.str a.system_prompt) ::
        (optSeg "avatar_url" Json.str a.avatar_url ++
          (optSeg "model" Json.str a.model ++
            (optSeg "custom_params" id a.custom_params ++
              (optSeg "base_url" Json.str a.base_url ++
                (optSeg "api_key" Json.str a.api_key ++
                  (optSeg "stream" Json.bool a.stream ++
                    (optSeg "order" Json.num a.order ++
                      optSeg "temperature" Json.num a.temperature))))))))
      "custom_params" = some a.custom_params := by
    refine readOpt_of_getField some id (fun x => rfl) _ a.custom_params _ ?_
    simp [getField_cons_ne, getField_optSeg_ne, getField_optSeg_self,
      getField_optSeg_last_ne]
  have hbu : readOpt jStr
      (("name", Json.str a.name) :: ("system_prompt", Json.str a.system_prompt) ::
        (optSeg "avatar_url" Json.str a.avatar_url ++
          (optSeg "model" Json.str a.model ++
            (optSeg "custom_params" id a.custom_params ++
              (optSeg "base_url" Json.str a.base_url ++
                (optSeg "api_key" Json.str a.api_key ++
                  (optSeg "stream" Json.bool a.stream ++
                    (optSeg "order" Json.num a.order ++
                      optSeg "temperature" Json.num a.temperature))))))))
      "base_url" = some a.base_url := by
    refine readOpt_of_getField jStr Json.str (fun x => rfl) _ a.base_url _ ?_
    simp [getField_cons_ne, getField_optSeg_ne, getField_optSeg_self,
      getField_optSeg_last_ne]
  have hak : readOpt jStr
      (("name", Json.str a.name) :: ("system_prompt", Json.str a.system_prompt) ::
        (optSeg "avatar_url" Json.str a.avatar_url ++
          (optSeg "model" Json.str a.model ++
            (optSeg "custom_params" id a.custom_params ++
              (optSeg "base_url" Json.str a.base_url ++
                (optSeg "api_key" Json.str a.api_key ++
                  (optSeg "stream" Json.bool a.stream ++
                    (optSeg "order" Json.num a.order ++
                      optSeg "temperature" Json.num a.temperature))))))))
      "api_key" = some a.api_key := by
    refine readOpt_of_getField jStr Json.str (fun x => rfl) _ a.api_key _ ?_
    simp [getField_cons_ne, getField_optSeg_ne, getField_optSeg_self,
      getField_optSeg_last_ne]
  have hst : readOpt jBool
      (("name", Json.str a.name) :: ("system_prompt", Json.str a.system_prompt) ::
        (optSeg "avatar_url" Json.str a.avatar_url ++
          (optSeg "model" Json.str a.model ++
            (optSeg "custom_params" id a.custom_params ++
              (optSeg "base_url" Json.str a.base_url ++
                (optSeg "api_key" Json.str a.api_key ++
                  (optSeg "stream" Json.bool a.stream ++
                    (optSeg "order" Json.num a.order ++
                      optSeg "temperature" Json.num a.temperature))))))))
      "stream" = some a.stream := by
    refine readOpt_of_getField jBool Json.bool (fun x => rfl) _ a.stream _ ?_
    simp [getField_cons_ne, getField_optSeg_ne, getField_optSeg_self,
      getField_optSeg_last_ne]
  have hor : readOpt jNum
      (("name", Json.str a.name) :: ("system_prompt", Json.str a.system_prompt) ::
        (optSeg "avatar_url" Json.str a.avatar_url ++
          (optSeg "model" Json.str a.model ++
            (optSeg "custom_params" id a.custom_params ++
              (optSeg "base_url" Json.str a.base_url ++
                (optSeg "api_key" Json.str a.api_key ++
                  (optSeg "stream" Json.bool a.stream ++
                    (optSeg "order" Json.num a.order ++
                      optSeg "temperature" Json.num a.temperature))))))))
      "order" = some a.order := by
    refine readOpt_of_getField jNum Json.num (fun x => rfl) _ a.order _ ?_
    simp [getField_cons_ne, getField_optSeg_ne, getField_optSeg_self,
      getField_optSeg_last_ne]
  have hte : readOpt jNum
      (("name", Json.str a.name) :: ("system_prompt", Json.str a.system_prompt) ::
        (optSeg "avatar_url" Json.str a.avatar_url ++
          (optSeg "model" Json.str a.model ++
            (optSeg "custom_params" id a.custom_params ++
              (optSeg "base_url" Json.str a.base_url ++
                (optSeg "api_key" Json.str a.api_key ++
                  (optSeg "stream" Json.bool a.stream ++
                    (optSeg "order" Json.num a.order ++
                      optSeg "temperature" Json.num a.temperature))))))))
      "temperature" = some a.temperature := by
    refine readOpt_of_getField jNum Json.num (fun x => rfl) _ a.temperature _ ?_
    simp [getField_cons_ne, getField_optSeg_ne, getField_optSeg_last_self]
  simp [agentFromJson, readReq, hav, hmo, hcp, hbu, hak, hst, hor, hte,
    getField_cons_self, getField_cons_ne, jStr]

theorem bundleFromJson_toJson (b : ExportBundleV1) :
    bundleFromJson (bundleToJson b) = some b := by
  have htrA : ∀ l : List Agent,
      optTraverse agentFromJson (l.map agentToJson) = some l :=
    optTraverse_map _ _ agentFromJson_toJson
  have htrS : ∀ l : List StoredSession,
      optTraverse sessionFromJson (l.map sessionToJson) = some l :=
    optTraverse_map _ _ sessionFromJson_toJson
  have hact : activeFromJson
      (match b.active_session_id with
       | none => Json.null
       | some s => Json.str s) = some b.active_session_id := by
    cases b.active_session_id <;> rfl
  simp [bundleToJson, bundleFromJson, readReq, htrA, htrS, hact,
    getField_cons_self, getField_cons_ne, jStr, jNum, jArr]

/-- C6: the backup codec round-trips: serialising the store snapshot to its
plain JSON text or to the single-entry archive holding that text under
"export.json", and importing it back, reproduces the bundle field for field. -/
theorem backupRoundTrip (store : Store) (now : Nat)
    (active : Option String) :
    importFromJsonModel (exportAsJsonModel store now active) =
      .ok (dbExportBundle store now active) ∧
    importFromZipModel (exportAsZipModel store now active) =
      .ok (dbExportBundle store now active) := by
  have hjson : importFromJsonModel (exportAsJsonModel store now active) =
      .ok (dbExportBundle store now active) := by
    unfold importFromJsonModel exportAsJsonModel
    rw [jsonParseAll_print]
    simp [bundleFromJson_toJson, dbExportBundle]
  refine ⟨hjson, ?_⟩
  unfold importFromZipModel exportAsZipModel pickExportJson
  rw [List.find?_cons_of_pos _ (by simp)]
  exact hjson

end AgentGroup
